import Mathlib

/-!
Verification of the BioSim island simulation (Animal.py, Cell.py, Map.py,
simulation_nograph.py).

Modelling conventions.
* Python floats are modelled as exact rationals (`ℚ`); the transcendental
  fitness formula (`1/(1+e^x)`) is modelled exactly over `ℝ` in a dedicated
  section, and elsewhere the fitness value is supplied by an abstract
  function parameter `fitf : ℕ → ℚ → ℚ` standing for the species fitness
  formula evaluated at (age, weight).
* `random.choices([False, True], [1-prob, prob])` is modelled by `choice2`:
  the draw is certain at the boundary probabilities (weights `[1,0]` /
  `[0,1]` in Python) and otherwise supplied by an oracle boolean.
  Other random draws (log-normal birth weights, shuffle permutations,
  uniform neighbour picks) are likewise supplied by oracle arguments, so
  theorems quantify over every possible random outcome.
* Mutation of Python objects becomes explicit state passing: an operation
  that mutates `self` returns the updated record.
-/

namespace Biosim

/-- State of one animal: `age`, `weight` and the `moved` flag, as set by
`Animal.__init__`. -/
structure AnimalQ where
  age : ℕ
  weight : ℚ
  moved : Bool
deriving DecidableEq, Repr

/-- The species-wide parameter dictionary (`Animal.parameter`).  `DeltaPhiMax`
exists only in the carnivore dictionary; for herbivores it is unused and set
to 0 here. -/
structure AnimalParams where
  w_birth : ℚ
  sigma_birth : ℚ
  beta : ℚ
  eta : ℚ
  a_half : ℚ
  phi_age : ℚ
  w_half : ℚ
  phi_weight : ℚ
  mu : ℚ
  gamma : ℚ
  zeta : ℚ
  xi : ℚ
  omega : ℚ
  F : ℚ
  DeltaPhiMax : ℚ
deriving DecidableEq, Repr

/-- Default parameter table of `Herbivores`. -/
def herbParams : AnimalParams :=
  ⟨8, 1.5, 0.9, 0.05, 40, 0.6, 10, 0.1, 0.25, 0.2, 3.5, 1.2, 0.4, 10, 0⟩

/-- Default parameter table of `Carnivores`. -/
def carnParams : AnimalParams :=
  ⟨6, 1, 0.75, 0.125, 40, 0.3, 4, 0.4, 0.4, 0.8, 3.5, 1.1, 0.8, 50, 10⟩

/-- `random.choices([False, True], [1 - prob, prob])[0]`: certainly `false`
when `prob ≤ 0` (weight 0 on `True`), certainly `true` when `1 ≤ prob`
(weight ≤ 0 on `False`), otherwise decided by the oracle draw. -/
def choice2 (prob : ℚ) (draw : Bool) : Bool :=
  if prob ≤ 0 then false else if 1 ≤ prob then true else draw

/-- The `Animal.fitness` property: 0 when `weight ≤ 0`, otherwise the value of
`fitness_calculation`, which is abstracted by `fitf` in the rational layer. -/
def fitnessQ (fitf : ℕ → ℚ → ℚ) (a : AnimalQ) : ℚ :=
  if a.weight ≤ 0 then 0 else fitf a.age a.weight

namespace Animal

/-- `Animal.procreate(N)`.  The coin draw is always consumed (Python's eager
`&`); the log-normal birth-weight sample is the oracle value `babyW`.
Returns the (possibly updated) mother and the optional baby. -/
def procreate (P : AnimalParams) (fitf : ℕ → ℚ → ℚ) (a : AnimalQ) (N : ℕ)
    (draw : Bool) (babyW : ℚ) : AnimalQ × Option AnimalQ :=
  if (P.w_birth + P.sigma_birth) * P.zeta ≤ a.weight ∧ 1 < a.age ∧
      choice2 (min 1 (P.gamma * fitnessQ fitf a * N)) draw = true then
    if 0 ≤ a.weight - P.xi * babyW then
      ({a with weight := a.weight - P.xi * babyW}, some ⟨0, babyW, false⟩)
    else
      (a, none)
  else
    (a, none)

/-- `Animal.growth_per_year`. -/
def growth_per_year (a : AnimalQ) : AnimalQ :=
  {a with age := a.age + 1}

/-- `Animal.weight_loss_per_year`: lose `weight * eta`, clamp at 0. -/
def weight_loss_per_year (P : AnimalParams) (a : AnimalQ) : AnimalQ :=
  let w := a.weight - a.weight * P.eta
  {a with weight := if w < 0 then 0 else w}

end Animal

/-- C6: `procreate(N)` grants a birth only if
`weight ≥ zeta*(w_birth+sigma_birth)`, `age > 1` and the weighted coin flip
with probability `min 1 (gamma*fitness*N)` succeeds; it never grants a birth
when `age ≤ 1`; and when deducting `xi*babyW` would make the mother's weight
negative the birth is retracted: no offspring, weight unchanged. -/
theorem C6_procreate_guards (P : AnimalParams) (fitf : ℕ → ℚ → ℚ) (a : AnimalQ)
    (N : ℕ) (draw : Bool) (babyW : ℚ) :
    (∀ b, (Animal.procreate P fitf a N draw babyW).2 = some b →
      (P.w_birth + P.sigma_birth) * P.zeta ≤ a.weight ∧ 1 < a.age ∧
      choice2 (min 1 (P.gamma * fitnessQ fitf a * N)) draw = true ∧
      b = ⟨0, babyW, false⟩ ∧
      (Animal.procreate P fitf a N draw babyW).1.weight =
        a.weight - P.xi * babyW) ∧
    (a.age ≤ 1 → Animal.procreate P fitf a N draw babyW = (a, none)) ∧
    (a.weight - P.xi * babyW < 0 →
      Animal.procreate P fitf a N draw babyW = (a, none)) := by
  refine ⟨?_, ?_, ?_⟩
  · intro b hb
    unfold Animal.procreate at hb ⊢
    split_ifs at hb ⊢ with h1 h2
    · obtain ⟨hw, hage, hc⟩ := h1
      simp only at hb
      injection hb with hb'
      exact ⟨hw, hage, hc, hb'.symm, rfl⟩
  · intro hage
    unfold Animal.procreate
    have h1 : ¬ ((P.w_birth + P.sigma_birth) * P.zeta ≤ a.weight ∧ 1 < a.age ∧
        choice2 (min 1 (P.gamma * fitnessQ fitf a * N)) draw = true) := by
      rintro ⟨-, h, -⟩; omega
    rw [if_neg h1]
  · intro hw
    unfold Animal.procreate
    split_ifs with h1 h2
    · exact absurd h2 (by linarith)
    · rfl
    · rfl

/-- `Herbivores.eat`: weight increases by `beta * F`. -/
def Herbivores.eat (P : AnimalParams) (a : AnimalQ) : AnimalQ :=
  {a with weight := a.weight + P.beta * P.F}

/-- Per-prey kill probability in `Carnivores.hunt`: starts at 1, becomes 0
when the carnivore is no fitter than the prey, the linear ratio when the
fitness gap is strictly between 0 and `DeltaPhiMax`. -/
def killProb (P : AnimalParams) (fit afit : ℚ) : ℚ :=
  if fit ≤ afit then 0
  else if 0 < fit - afit ∧ fit - afit < P.DeltaPhiMax then
    (fit - afit) / P.DeltaPhiMax
  else 1

/-- Loop of `Carnivores.hunt`: one coin draw per prey (index `k` into the
oracle), keeping the prey whose draw succeeds, in order. -/
def huntAux (P : AnimalParams) (fitf : ℕ → ℚ → ℚ) (fit : ℚ) (draws : ℕ → Bool) :
    List AnimalQ → ℕ → List AnimalQ
  | [], _ => []
  | a :: rest, k =>
    if choice2 (killProb P fit (fitnessQ fitf a)) (draws k) then
      a :: huntAux P fitf fit draws rest (k + 1)
    else
      huntAux P fitf fit draws rest (k + 1)

/-- `Carnivores.hunt(animal_list)`: the carnivore's own fitness (via the
carnivore fitness function `fitfC`) is computed once before the loop; each
prey's fitness uses the herbivore fitness function `fitfH`. -/
def Carnivores.hunt (P : AnimalParams) (fitfC fitfH : ℕ → ℚ → ℚ) (c : AnimalQ)
    (animal_list : List AnimalQ) (draws : ℕ → Bool) : List AnimalQ :=
  huntAux P fitfH (fitnessQ fitfC c) draws animal_list 0

/-- Accumulator loop for `np.cumsum`. -/
def cumsumAux (acc : ℚ) : List ℚ → List ℚ
  | [] => []
  | x :: xs => (acc + x) :: cumsumAux (acc + x) xs

/-- `np.cumsum`: list of partial sums. -/
def cumsum (l : List ℚ) : List ℚ :=
  cumsumAux 0 l

/-- The binary-search loop of `np.searchsorted(a, v, side='left')`:
`lo = 0, hi = n; while lo < hi: mid = (lo+hi)//2; if a[mid] < v: lo = mid+1
else: hi = mid; return lo`. -/
def searchsortedAux (a : List ℚ) (v : ℚ) (lo hi : ℕ) : ℕ :=
  if _h : lo < hi then
    if a.getD ((lo + hi) / 2) 0 < v then searchsortedAux a v ((lo + hi) / 2 + 1) hi
    else searchsortedAux a v lo ((lo + hi) / 2)
  else lo
termination_by hi - lo
decreasing_by
  · omega
  · omega

/-- `np.searchsorted(a, v, side='left')`. -/
def searchsorted_left (a : List ℚ) (v : ℚ) : ℕ :=
  searchsortedAux a v 0 a.length

/-- `Carnivores.eat(animal_list)`: run `hunt`, cumulate the victims' weights;
if fewer than two victims eat them all (gaining `beta * sum(cumsum)`); if `F`
exceeds the second-to-last cumulative weight eat them all (gaining
`beta * cumsum[-1]`); otherwise stop at `searchsorted(cumsum, F, 'left')`,
eating victims `0..i` and gaining `beta * cumsum[i]`.  Returns the carnivore
with its new weight and the list of eaten prey. -/
def Carnivores.eatCore (P : AnimalParams) (c : AnimalQ) (hunt_list : List AnimalQ) :
    AnimalQ × List AnimalQ :=
  if (cumsum (hunt_list.map (·.weight))).length < 2 then
    ({c with weight := c.weight + P.beta * (cumsum (hunt_list.map (·.weight))).sum},
      hunt_list)
  else if (cumsum (hunt_list.map (·.weight))).getD
      ((cumsum (hunt_list.map (·.weight))).length - 2) 0 < P.F then
    ({c with weight := c.weight + P.beta * (cumsum (hunt_list.map (·.weight))).getD ((cumsum (hunt_list.map (·.weight))).length - 1) 0},
      hunt_list)
  else
    ({c with weight := c.weight + P.beta * (cumsum (hunt_list.map (·.weight))).getD (searchsorted_left (cumsum (hunt_list.map (·.weight))) P.F) 0},
      hunt_list.take (searchsorted_left (cumsum (hunt_list.map (·.weight))) P.F + 1))

/-- `Carnivores.eat(animal_list)` = run `hunt`, then the consumption step. -/
def Carnivores.eat (P : AnimalParams) (fitfC fitfH : ℕ → ℚ → ℚ) (c : AnimalQ)
    (animal_list : List AnimalQ) (draws : ℕ → Bool) : AnimalQ × List AnimalQ :=
  Carnivores.eatCore P c (Carnivores.hunt P fitfC fitfH c animal_list draws)

/-- Witness for C6 at concrete inputs: a retracted birth (mother weight 100,
baby weight 200, `xi = 1.2`) returns no offspring and leaves the mother
unchanged, and an age-1 animal never procreates. -/
theorem C6_procreate_guards_witness :
    Animal.procreate herbParams (fun _ _ => 1/2) ⟨5, 100, false⟩ 3 true 200 =
      (⟨5, 100, false⟩, none) ∧
    Animal.procreate herbParams (fun _ _ => 1/2) ⟨1, 100, false⟩ 3 true 5 =
      (⟨1, 100, false⟩, none) := by
  constructor
  · exact (C6_procreate_guards herbParams (fun _ _ => 1/2) ⟨5, 100, false⟩ 3
      true 200).2.2 (by norm_num [herbParams])
  · exact (C6_procreate_guards herbParams (fun _ _ => 1/2) ⟨1, 100, false⟩ 3
      true 5).2.1 (by norm_num)

theorem cumsumAux_length (l : List ℚ) : ∀ acc : ℚ,
    (cumsumAux acc l).length = l.length := by
  induction l with
  | nil => intro acc; rfl
  | cons x xs ih => intro acc; simp only [cumsumAux, List.length_cons, ih]

theorem cumsum_length (l : List ℚ) : (cumsum l).length = l.length :=
  cumsumAux_length l 0

theorem cumsumAux_getD (l : List ℚ) : ∀ (acc : ℚ) (i : ℕ), i < l.length →
    (cumsumAux acc l).getD i 0 = acc + (l.take (i + 1)).sum := by
  induction l with
  | nil => intro acc i h; simp at h
  | cons x xs ih =>
    intro acc i h
    cases i with
    | zero => simp [cumsumAux]
    | succ n =>
      have hn : n < xs.length := by simpa using h
      simp only [cumsumAux, List.getD_cons_succ]
      rw [ih (acc + x) n hn, List.take_succ_cons, List.sum_cons]
      ring

theorem cumsum_getD (l : List ℚ) (i : ℕ) (h : i < l.length) :
    (cumsum l).getD i 0 = (l.take (i + 1)).sum := by
  rw [cumsum, cumsumAux_getD l 0 i h, zero_add]

theorem sum_take_le_sum_take (l : List ℚ) (h : ∀ x ∈ l, 0 ≤ x) {i j : ℕ}
    (hij : i ≤ j) : (l.take i).sum ≤ (l.take j).sum := by
  refine List.Sublist.sum_le_sum ((List.take_prefix_take_left l hij).sublist) ?_
  intro a ha
  exact h a (List.mem_of_mem_take ha)

theorem sum_take_le_sum (l : List ℚ) (h : ∀ x ∈ l, 0 ≤ x) (i : ℕ) :
    (l.take i).sum ≤ l.sum :=
  List.Sublist.sum_le_sum ((List.take_prefix i l).sublist) h

theorem cumsum_mono (l : List ℚ) (h : ∀ x ∈ l, 0 ≤ x) :
    ∀ i j, i ≤ j → j < l.length → (cumsum l).getD i 0 ≤ (cumsum l).getD j 0 := by
  intro i j hij hj
  rw [cumsum_getD l i (lt_of_le_of_lt hij hj), cumsum_getD l j hj]
  exact sum_take_le_sum_take l h (by omega)

theorem searchsortedAux_spec (a : List ℚ) (v : ℚ)
    (mono : ∀ i j, i ≤ j → j < a.length → a.getD i 0 ≤ a.getD j 0) :
    ∀ n lo hi, hi - lo ≤ n → lo ≤ hi → hi ≤ a.length →
      (∀ j < lo, a.getD j 0 < v) →
      (∀ j, hi ≤ j → j < a.length → v ≤ a.getD j 0) →
      lo ≤ searchsortedAux a v lo hi ∧ searchsortedAux a v lo hi ≤ hi ∧
        (∀ j < searchsortedAux a v lo hi, a.getD j 0 < v) ∧
        (searchsortedAux a v lo hi < a.length →
          v ≤ a.getD (searchsortedAux a v lo hi) 0) := by
  intro n
  induction n with
  | zero =>
    intro lo hi hn hlh hha hbelow habove
    have heq : hi = lo := by omega
    subst heq
    rw [searchsortedAux]
    simp only [lt_irrefl, dite_false]
    exact ⟨le_refl _, le_refl _, hbelow, fun h => habove _ (le_refl _) h⟩
  | succ m ih =>
    intro lo hi hn hlh hha hbelow habove
    by_cases hlt : lo < hi
    · have hmidlo : lo ≤ (lo + hi) / 2 := by omega
      have hmidhi : (lo + hi) / 2 < hi := by omega
      have hmidlen : (lo + hi) / 2 < a.length := lt_of_lt_of_le hmidhi hha
      rw [searchsortedAux]
      rw [dif_pos hlt]
      by_cases hcmp : a.getD ((lo + hi) / 2) 0 < v
      · rw [if_pos hcmp]
        have hrec := ih ((lo + hi) / 2 + 1) hi (by omega) (by omega) hha
          (fun j hj => lt_of_le_of_lt
            (mono j ((lo + hi) / 2) (by omega) hmidlen) hcmp)
          habove
        exact ⟨le_trans (by omega) hrec.1, hrec.2.1, hrec.2.2.1, hrec.2.2.2⟩
      · rw [if_neg hcmp]
        push_neg at hcmp
        have hrec := ih lo ((lo + hi) / 2) (by omega) hmidlo
          (le_of_lt hmidlen) hbelow
          (fun j hj hjlen => le_trans hcmp (mono ((lo + hi) / 2) j hj hjlen))
        exact ⟨hrec.1, le_trans hrec.2.1 (le_of_lt hmidhi), hrec.2.2.1,
          hrec.2.2.2⟩
    · have heq : hi = lo := by omega
      subst heq
      rw [searchsortedAux]
      simp only [lt_irrefl, dite_false]
      exact ⟨le_refl _, le_refl _, hbelow, fun h => habove _ (le_refl _) h⟩

theorem searchsorted_left_spec (a : List ℚ) (v : ℚ)
    (mono : ∀ i j, i ≤ j → j < a.length → a.getD i 0 ≤ a.getD j 0) :
    searchsorted_left a v ≤ a.length ∧
      (∀ j < searchsorted_left a v, a.getD j 0 < v) ∧
      (searchsorted_left a v < a.length → v ≤ a.getD (searchsorted_left a v) 0) := by
  have h := searchsortedAux_spec a v mono a.length 0 a.length (by omega)
    (Nat.zero_le _) (le_refl _) (by omega) (by omega)
  exact ⟨h.2.1, h.2.2.1, h.2.2.2⟩

theorem huntAux_sublist (P : AnimalParams) (fitf : ℕ → ℚ → ℚ) (fit : ℚ)
    (draws : ℕ → Bool) : ∀ (l : List AnimalQ) (k : ℕ),
    List.Sublist (huntAux P fitf fit draws l k) l := by
  intro l
  induction l with
  | nil => intro k; simp [huntAux]
  | cons a rest ih =>
    intro k
    rw [huntAux]
    split_ifs
    · exact (ih (k + 1)).cons₂ a
    · exact (ih (k + 1)).cons a

theorem hunt_sublist (P : AnimalParams) (fitfC fitfH : ℕ → ℚ → ℚ) (c : AnimalQ)
    (animal_list : List AnimalQ) (draws : ℕ → Bool) :
    List.Sublist (Carnivores.hunt P fitfC fitfH c animal_list draws) animal_list :=
  huntAux_sublist P fitfH (fitnessQ fitfC c) draws animal_list 0

theorem eatCore_spec (P : AnimalParams) (c : AnimalQ) (hl : List AnimalQ)
    (h0 : ∀ a ∈ hl, 0 ≤ a.weight) (hF : 0 < P.F) :
    (Carnivores.eatCore P c hl).2.length ≤ hl.length ∧
    (Carnivores.eatCore P c hl).2 <+: hl ∧
    (Carnivores.eatCore P c hl).1.weight =
      c.weight + P.beta * ((Carnivores.eatCore P c hl).2.map (·.weight)).sum ∧
    ((hl.map (·.weight)).sum < P.F → (Carnivores.eatCore P c hl).2 = hl) ∧
    (P.F ≤ (hl.map (·.weight)).sum →
      ∃ i, i < hl.length ∧ P.F ≤ ((hl.map (·.weight)).take (i + 1)).sum ∧
        (∀ j < i, ((hl.map (·.weight)).take (j + 1)).sum < P.F) ∧
        (Carnivores.eatCore P c hl).2 = hl.take (i + 1)) ∧
    ((Carnivores.eatCore P c hl).2.dropLast.map (·.weight)).sum < P.F := by
  have hw0 : ∀ x ∈ hl.map (·.weight), 0 ≤ x := by
    intro x hx
    obtain ⟨a, ha, rfl⟩ := List.mem_map.mp hx
    exact h0 a ha
  have hmono := cumsum_mono (hl.map (·.weight)) hw0
  have hlen : (cumsum (hl.map (·.weight))).length = hl.length := by
    rw [cumsum_length, List.length_map]
  have hlenm : (hl.map (·.weight)).length = hl.length := List.length_map _ _
  unfold Carnivores.eatCore
  split_ifs with h1 h2
  · -- fewer than two victims: all are eaten
    rcases hl with _ | ⟨a, _ | ⟨b, tl⟩⟩
    · refine ⟨le_refl _, List.prefix_refl _, ?_, fun _ => rfl, ?_, ?_⟩
      · simp [cumsum, cumsumAux]
      · intro hge
        exact absurd (lt_of_lt_of_le hF hge) (by simp)
      · simpa using hF
    · refine ⟨le_refl _, List.prefix_refl _, ?_, fun _ => rfl, ?_, ?_⟩
      · simp [cumsum, cumsumAux]
      · intro hge
        refine ⟨0, by simp, by simpa using hge, fun j hj => absurd hj (by omega),
          by simp⟩
      · simpa using hF
    · exfalso
      rw [hlen] at h1
      simp only [List.length_cons] at h1
      omega
  · -- F > cumsum[-2]: all are eaten
    push_neg at h1
    have hl2 : 2 ≤ hl.length := by omega
    rw [hlen] at h2
    have hlast : (cumsum (hl.map (·.weight))).getD
        ((cumsum (hl.map (·.weight))).length - 1) 0 = (hl.map (·.weight)).sum := by
      rw [hlen, cumsum_getD _ (hl.length - 1) (by omega)]
      have he : hl.length - 1 + 1 = (hl.map (·.weight)).length := by omega
      rw [he, List.take_length]
    have hpen : (cumsum (hl.map (·.weight))).getD (hl.length - 2) 0 =
        ((hl.map (·.weight)).take (hl.length - 1)).sum := by
      rw [cumsum_getD _ (hl.length - 2) (by omega)]
      have he : hl.length - 2 + 1 = hl.length - 1 := by omega
      rw [he]
    refine ⟨le_refl _, List.prefix_refl _, by rw [hlast], fun _ => rfl, ?_, ?_⟩
    · intro hge
      refine ⟨hl.length - 1, by omega, ?_, ?_, ?_⟩
      · have he : hl.length - 1 + 1 = (hl.map (·.weight)).length := by omega
        rw [he, List.take_length]
        exact hge
      · intro j hj
        rw [← cumsum_getD _ j (by omega)]
        calc (cumsum (hl.map (·.weight))).getD j 0
            ≤ (cumsum (hl.map (·.weight))).getD (hl.length - 2) 0 :=
              hmono j (hl.length - 2) (by omega) (by omega)
          _ < P.F := h2
      · have he : hl.length - 1 + 1 = hl.length := by omega
        rw [he]
        exact (List.take_length hl).symm
    · rw [List.map_dropLast, List.dropLast_eq_take, hlenm, ← hpen]
      exact h2
  · -- stop at the searchsorted index
    push_neg at h1 h2
    rw [hlen] at h2
    have hl2 : 2 ≤ hl.length := by omega
    have hmono2 : ∀ i j, i ≤ j → j < (cumsum (hl.map (·.weight))).length →
        (cumsum (hl.map (·.weight))).getD i 0 ≤
        (cumsum (hl.map (·.weight))).getD j 0 := by
      intro i j hij hj
      exact hmono i j hij (by rwa [cumsum_length] at hj)
    obtain ⟨hile, hbelow, hat⟩ :=
      searchsorted_left_spec (cumsum (hl.map (·.weight))) P.F hmono2
    have hi2 : searchsorted_left (cumsum (hl.map (·.weight))) P.F ≤
        hl.length - 2 := by
      by_contra hcon
      push_neg at hcon
      exact absurd (hbelow _ hcon) (not_lt.mpr h2)
    have hilt : searchsorted_left (cumsum (hl.map (·.weight))) P.F < hl.length := by
      omega
    have hgetD : (cumsum (hl.map (·.weight))).getD
        (searchsorted_left (cumsum (hl.map (·.weight))) P.F) 0 =
        ((hl.map (·.weight)).take
          (searchsorted_left (cumsum (hl.map (·.weight))) P.F + 1)).sum :=
      cumsum_getD _ _ (by omega)
    have hsum : P.F ≤ (hl.map (·.weight)).sum := by
      have h4 : (cumsum (hl.map (·.weight))).getD (hl.length - 1) 0 =
          (hl.map (·.weight)).sum := by
        rw [cumsum_getD _ (hl.length - 1) (by omega)]
        have he : hl.length - 1 + 1 = (hl.map (·.weight)).length := by omega
        rw [he, List.take_length]
      have h3 := hmono (hl.length - 2) (hl.length - 1) (by omega) (by omega)
      rw [h4] at h3
      exact le_trans h2 h3
    refine ⟨?_, List.take_prefix _ _, ?_, ?_, ?_, ?_⟩
    · rw [List.length_take]; omega
    · rw [hgetD, List.map_take]
    · intro hlt
      exact absurd hsum (not_le.mpr hlt)
    · intro _
      refine ⟨searchsorted_left (cumsum (hl.map (·.weight))) P.F, hilt, ?_, ?_, rfl⟩
      · rw [← hgetD]
        exact hat (by omega)
      · intro j hj
        rw [← cumsum_getD _ j (by omega)]
        exact hbelow j hj
    · rw [List.map_dropLast, List.map_take, List.dropLast_eq_take,
        List.length_take]
      have hmin : min (searchsorted_left (cumsum (hl.map (·.weight))) P.F + 1)
          (hl.map (·.weight)).length =
          searchsorted_left (cumsum (hl.map (·.weight))) P.F + 1 := by omega
      rw [hmin, Nat.add_sub_cancel, List.take_take]
      have hmin2 : min (searchsorted_left (cumsum (hl.map (·.weight))) P.F)
          (searchsorted_left (cumsum (hl.map (·.weight))) P.F + 1) =
          searchsorted_left (cumsum (hl.map (·.weight))) P.F := by omega
      rw [hmin2]
      cases hszero : searchsorted_left (cumsum (hl.map (·.weight))) P.F with
      | zero => simpa using hF
      | succ j =>
        rw [← cumsum_getD _ j (by omega)]
        exact hbelow j (by omega)

/-- C1 (amended): for every carnivore, prey list with non-negative weights and
random draws, `Carnivores.eat` returns a consumed-prey list that is never
longer than the `hunt` candidate list and is a prefix of it (consumption in
hunt-list order); the carnivore's weight increases by `beta` times the
cumulative weight actually eaten; if the total hunted weight is below `F` all
candidates are consumed, and otherwise consumption stops exactly at the first
victim at which the cumulative weight reaches or exceeds `F` (so the intake
cap `F` can be exceeded, but only by part of the final victim: the cumulative
weight before the final victim is strictly below `F`). -/
theorem C1_carnivore_eat (P : AnimalParams) (fitfC fitfH : ℕ → ℚ → ℚ)
    (c : AnimalQ) (animal_list : List AnimalQ) (draws : ℕ → Bool)
    (h0 : ∀ a ∈ animal_list, 0 ≤ a.weight) (hF : 0 < P.F) :
    (Carnivores.eat P fitfC fitfH c animal_list draws).2.length ≤
      (Carnivores.hunt P fitfC fitfH c animal_list draws).length ∧
    (Carnivores.eat P fitfC fitfH c animal_list draws).2 <+:
      Carnivores.hunt P fitfC fitfH c animal_list draws ∧
    (Carnivores.eat P fitfC fitfH c animal_list draws).1.weight =
      c.weight + P.beta *
        ((Carnivores.eat P fitfC fitfH c animal_list draws).2.map (·.weight)).sum ∧
    (((Carnivores.hunt P fitfC fitfH c animal_list draws).map (·.weight)).sum < P.F →
      (Carnivores.eat P fitfC fitfH c animal_list draws).2 =
        Carnivores.hunt P fitfC fitfH c animal_list draws) ∧
    (P.F ≤ ((Carnivores.hunt P fitfC fitfH c animal_list draws).map (·.weight)).sum →
      ∃ i, i < (Carnivores.hunt P fitfC fitfH c animal_list draws).length ∧
        P.F ≤ (((Carnivores.hunt P fitfC fitfH c animal_list draws).map
          (·.weight)).take (i + 1)).sum ∧
        (∀ j < i, (((Carnivores.hunt P fitfC fitfH c animal_list draws).map
          (·.weight)).take (j + 1)).sum < P.F) ∧
        (Carnivores.eat P fitfC fitfH c animal_list draws).2 =
          (Carnivores.hunt P fitfC fitfH c animal_list draws).take (i + 1)) ∧
    ((Carnivores.eat P fitfC fitfH c animal_list draws).2.dropLast.map
      (·.weight)).sum < P.F := by
  have h0' : ∀ a ∈ Carnivores.hunt P fitfC fitfH c animal_list draws, 0 ≤ a.weight :=
    fun a ha => h0 a ((hunt_sublist P fitfC fitfH c animal_list draws).mem ha)
  exact eatCore_spec P c (Carnivores.hunt P fitfC fitfH c animal_list draws) h0' hF

/-- Witness for C1 at a concrete input (a single prey that the carnivore's
draw rejects): the eaten list is no longer than the hunted list. -/
theorem C1_carnivore_eat_witness :
    (Carnivores.eat carnParams (fun _ _ => 1) (fun _ _ => 1) ⟨2, 3, false⟩ [⟨2, 3, false⟩]
      (fun _ => false)).2.length ≤
    (Carnivores.hunt carnParams (fun _ _ => 1) (fun _ _ => 1) ⟨2, 3, false⟩ [⟨2, 3, false⟩]
      (fun _ => false)).length :=
  (C1_carnivore_eat carnParams (fun _ _ => 1) (fun _ _ => 1) ⟨2, 3, false⟩ [⟨2, 3, false⟩]
    (fun _ => false) (by decide) (by decide)).1

/-- Counterexample to C1 as stated: with default carnivore parameters
(`F = 50`), a carnivore of fitness 9/10 facing one huntable prey of weight
100 (prey fitness 0, kill probability 9/100, draw succeeds) consumes
cumulative weight 100 > 50 = F: the cumulative weight eaten exceeds the
intake cap. -/
theorem C1_counterexample :
    ¬ (((Carnivores.eat carnParams (fun _ _ => 9/10) (fun _ _ => 0)
        ⟨5, 10, false⟩ [⟨90, 100, false⟩] (fun _ => true)).2.map
        (·.weight)).sum ≤ carnParams.F) := by
  norm_num [Carnivores.eat, Carnivores.eatCore, Carnivores.hunt, huntAux,
    killProb, choice2, fitnessQ, cumsum, cumsumAux, carnParams]

/-- Error raised by `Animal.update_para` (a Python `ValueError`). -/
inductive ParamError where
  | unknownKey (k : String)
  | negativeValue
deriving DecidableEq, Repr

/-- `key in cls.parameter.keys()` for the parameter dictionary, modelled as an
association list (keys are unique by construction). -/
def hasKey (t : List (String × ℚ)) (k : String) : Bool :=
  t.any (fun kv => kv.1 = k)

/-- `cls.parameter[key] = value` for a key already present in the table. -/
def setKey (t : List (String × ℚ)) (k : String) (v : ℚ) : List (String × ℚ) :=
  t.map (fun kv => if kv.1 = k then (kv.1, v) else kv)

/-- `params[key]` lookup (yielding `none` for Python's `KeyError`). -/
def lookupKey : List (String × ℚ) → String → Option ℚ
  | [], _ => none
  | kv :: rest, k => if kv.1 = k then some kv.2 else lookupKey rest k

/-- First loop of `Animal.update_para`: for each supplied key, raise
`ValueError` if it is unknown, otherwise assign it immediately.  Returns the
table as mutated so far, with the error if one was raised. -/
def update_para_loop1 (t : List (String × ℚ)) :
    List (String × ℚ) → List (String × ℚ) × Option ParamError
  | [] => (t, none)
  | (k, v) :: rest =>
    if hasKey t k then update_para_loop1 (setKey t k v) rest
    else (t, some (ParamError.unknownKey k))

/-- Second loop of `Animal.update_para`: raise on the first negative value. -/
def update_para_loop2 : List (String × ℚ) → Option ParamError
  | [] => none
  | (_, v) :: rest =>
    if v < 0 then some ParamError.negativeValue else update_para_loop2 rest

/-- `Animal.update_para(params)`: the key loop assigns eagerly (raising on the
first unknown key); only after all assignments are values checked for
negativity.  The returned table is the class attribute as left by the call —
on an exception Python leaves the already-performed assignments in place. -/
def Animal.update_para (t : List (String × ℚ)) (params : List (String × ℚ)) :
    List (String × ℚ) × Option ParamError :=
  match update_para_loop1 t params with
  | (t', some e) => (t', some e)
  | (t', none) => (t', update_para_loop2 params)

/-- `dict.update` for the association-list table. -/
def dictUpdate (t : List (String × ℚ)) : List (String × ℚ) → List (String × ℚ)
  | [] => t
  | (k, v) :: rest =>
    dictUpdate (if hasKey t k then setKey t k v else t ++ [(k, v)]) rest

/-- `Animal.set_params(params)`: `cls.parameter.update(params)`, with no
validation at all. -/
def Animal.set_params (t : List (String × ℚ)) (params : List (String × ℚ)) :
    List (String × ℚ) :=
  dictUpdate t params

/-- The `Herbivores.parameter` dictionary as an association list, in source
order. -/
def herbTable : List (String × ℚ) :=
  [("w_birth", 8), ("sigma_birth", 1.5), ("beta", 0.9), ("eta", 0.05),
   ("a_half", 40), ("phi_age", 0.6), ("w_half", 10), ("phi_weight", 0.1),
   ("mu", 0.25), ("gamma", 0.2), ("zeta", 3.5), ("xi", 1.2), ("omega", 0.4),
   ("F", 10)]

/-- `Cell.ParamCell`. -/
structure ParamCell where
  f_max_L : ℚ
  f_max_H : ℚ
deriving DecidableEq, Repr

/-- Default `Cell.ParamCell = {'f_max_L': 800, 'f_max_H': 300}`. -/
def ParamCellDefault : ParamCell :=
  ⟨800, 300⟩

/-- Exceptions reachable from `Cell.update_cell_para`. -/
inductive CellParamError where
  | indexError
  | keyError
  | valueError
deriving DecidableEq, Repr

/-- `Cell.update_cell_para(landscape, params)`: checks only the FIRST value of
the dictionary for negativity (`list(params.values())[0] < 0`); then reads
`params['f_max']` for landscape `L` or `H` (KeyError when absent); any other
key in `params` is silently ignored, and any other landscape silently leaves
the table unchanged. -/
def Cell.update_cell_para (pc : ParamCell) (landscape : String)
    (params : List (String × ℚ)) : Except CellParamError ParamCell :=
  match params.head? with
  | none => Except.error CellParamError.indexError
  | some kv =>
    if kv.2 < 0 then Except.error CellParamError.valueError
    else if landscape = "L" then
      match lookupKey params "f_max" with
      | some v => Except.ok {pc with f_max_L := v}
      | none => Except.error CellParamError.keyError
    else if landscape = "H" then
      match lookupKey params "f_max" with
      | some v => Except.ok {pc with f_max_H := v}
      | none => Except.error CellParamError.keyError
    else Except.ok pc

theorem hasKey_setKey (t : List (String × ℚ)) (k k' : String) (v : ℚ) :
    hasKey (setKey t k v) k' = hasKey t k' := by
  induction t with
  | nil => rfl
  | cons kv rest ih =>
    simp only [setKey, hasKey, List.map_cons, List.any_cons] at ih ⊢
    by_cases h : kv.1 = k
    · simp [h, ih]
    · simp [h, ih]

theorem update_para_loop1_all_known (t : List (String × ℚ)) :
    ∀ ps : List (String × ℚ), (∀ kv ∈ ps, hasKey t kv.1 = true) →
    update_para_loop1 t ps =
      (ps.foldl (fun s kv => setKey s kv.1 kv.2) t, none) := by
  intro ps
  induction ps generalizing t with
  | nil => intro _; rfl
  | cons kv rest ih =>
    intro hall
    have hk : hasKey t kv.1 = true := hall kv (by simp)
    simp only [update_para_loop1, hk, if_true, List.foldl_cons]
    exact ih (setKey t kv.1 kv.2) (fun kv' h' => by
      rw [hasKey_setKey]
      exact hall kv' (by simp [h']))

theorem update_para_loop2_none_iff (ps : List (String × ℚ)) :
    update_para_loop2 ps = none ↔ ∀ kv ∈ ps, 0 ≤ kv.2 := by
  induction ps with
  | nil => simp [update_para_loop2]
  | cons kv rest ih =>
    simp only [update_para_loop2]
    by_cases h : kv.2 < 0
    · simp only [if_pos h]
      constructor
      · intro hc; exact absurd hc (by simp)
      · intro hall; exact absurd (hall kv (by simp)) (by simpa using h)
    · simp only [if_neg h, ih]
      push_neg at h
      constructor
      · intro hall kv' h'
        rcases List.mem_cons.mp h' with h'' | h''
        · rw [h'']; exact h
        · exact hall kv' h''
      · intro hall kv' h'
        exact hall kv' (List.mem_cons_of_mem _ h')

theorem update_para_loop1_unknown (t : List (String × ℚ)) :
    ∀ ps : List (String × ℚ), (∃ kv ∈ ps, hasKey t kv.1 = false) →
    ∃ k, (update_para_loop1 t ps).2 = some (ParamError.unknownKey k) := by
  intro ps
  induction ps generalizing t with
  | nil => rintro ⟨kv, h, -⟩; exact absurd h (by simp)
  | cons kv rest ih =>
    rintro ⟨kv', hmem, hunk⟩
    by_cases hk : hasKey t kv.1 = true
    · simp only [update_para_loop1, hk, if_true]
      refine ih (setKey t kv.1 kv.2) ⟨kv', ?_, ?_⟩
      · rcases List.mem_cons.mp hmem with h'' | h''
        · exfalso
          rw [h''] at hunk
          rw [hunk] at hk
          exact Bool.false_ne_true hk
        · exact h''
      · rw [hasKey_setKey]
        exact hunk
    · simp only [Bool.not_eq_true] at hk
      simp only [update_para_loop1, hk, Bool.false_eq_true, if_false]
      exact ⟨kv.1, rfl⟩

theorem update_para_loop1_unknown_split (t : List (String × ℚ)) :
    ∀ pre (k : String) (v : ℚ) rest,
    (∀ kv ∈ pre, hasKey t kv.1 = true) → hasKey t k = false →
    update_para_loop1 t (pre ++ (k, v) :: rest) =
      (pre.foldl (fun s kv => setKey s kv.1 kv.2) t,
       some (ParamError.unknownKey k)) := by
  intro pre
  induction pre generalizing t with
  | nil =>
    intro k v rest _ hunk
    simp only [List.nil_append, List.foldl_nil, update_para_loop1, hunk,
      Bool.false_eq_true, if_false]
  | cons kv pre' ih =>
    intro k v rest hall hunk
    have hk : hasKey t kv.1 = true := hall kv (by simp)
    simp only [List.cons_append, update_para_loop1, hk, if_true,
      List.foldl_cons]
    exact ih (setKey t kv.1 kv.2) k v rest
      (fun kv' h' => by
        rw [hasKey_setKey]
        exact hall kv' (by simp [h']))
      (by rw [hasKey_setKey]; exact hunk)

/-- C3 (amended): `Animal.update_para` raises a `ValueError` on an unknown key
and (when all keys are known) exactly when some supplied value is negative —
but it applies the supplied entries eagerly *before* the value check, so on a
negative-value rejection the species table has already absorbed the whole
update (the invalid values included), and on an unknown-key rejection the
entries before the offending key remain applied; `Cell.update_cell_para`
rejects only a negative *first* value (leaving the table unchanged, since it
validates before assigning), reads only `f_max`, and does not reject unknown
extra keys. -/
theorem C3_param_validation (t ps : List (String × ℚ)) (pc : ParamCell)
    (land : String) :
    ((∃ kv ∈ ps, hasKey t kv.1 = false) →
      ∃ k, (Animal.update_para t ps).2 = some (ParamError.unknownKey k)) ∧
    ((∀ kv ∈ ps, hasKey t kv.1 = true) →
      (Animal.update_para t ps).1 =
        ps.foldl (fun s kv => setKey s kv.1 kv.2) t ∧
      ((Animal.update_para t ps).2 = none ↔ ∀ kv ∈ ps, 0 ≤ kv.2)) ∧
    (∀ kv0, ps.head? = some kv0 → kv0.2 < 0 →
      Cell.update_cell_para pc land ps = Except.error CellParamError.valueError) ∧
    (∀ kv0 v, ps.head? = some kv0 → 0 ≤ kv0.2 →
      lookupKey ps "f_max" = some v →
      Cell.update_cell_para pc "L" ps = Except.ok {pc with f_max_L := v}) ∧
    (∀ pre (k : String) (v : ℚ) rest, ps = pre ++ (k, v) :: rest →
      (∀ kv ∈ pre, hasKey t kv.1 = true) → hasKey t k = false →
      Animal.update_para t ps =
        (pre.foldl (fun s kv => setKey s kv.1 kv.2) t,
         some (ParamError.unknownKey k))) := by
  refine ⟨?_, ?_, ?_, ?_, ?_⟩
  · intro hex
    obtain ⟨k, hk⟩ := update_para_loop1_unknown t ps hex
    unfold Animal.update_para
    refine ⟨k, ?_⟩
    rcases hloop : update_para_loop1 t ps with ⟨t', e⟩
    rw [hloop] at hk
    simp only at hk
    rw [hk]
  · intro hall
    unfold Animal.update_para
    rw [update_para_loop1_all_known t ps hall]
    exact ⟨rfl, update_para_loop2_none_iff ps⟩
  · intro kv0 hhead hneg
    unfold Cell.update_cell_para
    rw [hhead]
    simp only [if_pos hneg]
  · intro kv0 v hhead hpos hlook
    unfold Cell.update_cell_para
    rw [hhead]
    dsimp only
    rw [if_neg (not_lt.mpr hpos), if_pos rfl, hlook]
  · intro pre k v rest hsplit hall hunk
    subst hsplit
    unfold Animal.update_para
    rw [update_para_loop1_unknown_split t pre k v rest hall hunk]

/-- Witness for C3 at concrete inputs: an update with an unknown key is
rejected, a fully-known non-negative update is accepted and applied, a
negative first value is rejected by the cell setter while `f_max` updates
pass through, and an update rejected at an unknown second key leaves the
(known) first entry applied to the table. -/
theorem C3_param_validation_witness :
    (∃ k, (Animal.update_para herbTable [("bogus", 3)]).2 =
      some (ParamError.unknownKey k)) ∧
    (Animal.update_para herbTable [("eta", 0.1)]).2 = none ∧
    Cell.update_cell_para ParamCellDefault "L" [("f_max", -3)] =
      Except.error CellParamError.valueError ∧
    Cell.update_cell_para ParamCellDefault "L" [("f_max", 700)] =
      Except.ok ⟨700, 300⟩ ∧
    (Animal.update_para herbTable [("eta", 0.2), ("bogus", 3)]).2 =
      some (ParamError.unknownKey "bogus") ∧
    lookupKey (Animal.update_para herbTable [("eta", 0.2), ("bogus", 3)]).1
      "eta" = some 0.2 := by
  refine ⟨?_, ?_, ?_, ?_, ?_⟩
  · exact (C3_param_validation herbTable [("bogus", 3)] ParamCellDefault "L").1
      ⟨("bogus", 3), by simp, by simp [hasKey, herbTable]⟩
  · have h := ((C3_param_validation herbTable [("eta", 0.1)] ParamCellDefault
      "L").2.1 (by intro kv hkv; simp at hkv; rw [hkv]; simp [hasKey, herbTable])).2
    rw [h]
    intro kv hkv
    simp at hkv
    rw [hkv]
    norm_num
  · exact (C3_param_validation herbTable [("f_max", -3)] ParamCellDefault
      "L").2.2.1 ("f_max", -3) rfl (by norm_num)
  · exact (C3_param_validation herbTable [("f_max", 700)] ParamCellDefault
      "L").2.2.2.1 ("f_max", 700) 700 rfl (by norm_num) rfl
  · refine ⟨?_, ?_⟩
    · have h := (C3_param_validation herbTable [("eta", 0.2), ("bogus", 3)]
        ParamCellDefault "L").2.2.2.2 [("eta", 0.2)] "bogus" 3 [] rfl
        (by intro kv hkv; simp at hkv; rw [hkv]; simp [hasKey, herbTable])
        (by simp [hasKey, herbTable])
      rw [h]
    · have h := (C3_param_validation herbTable [("eta", 0.2), ("bogus", 3)]
        ParamCellDefault "L").2.2.2.2 [("eta", 0.2)] "bogus" 3 [] rfl
        (by intro kv hkv; simp at hkv; rw [hkv]; simp [hasKey, herbTable])
        (by simp [hasKey, herbTable])
      rw [h]
      simp [setKey, lookupKey, herbTable]

/-- Counterexample to C3 as stated: `update_para` with the single entry
`eta = -1` raises the negative-value `ValueError`, yet the herbivore table is
left holding `eta = -1` (it held `0.05`), so the rejected update *was*
applied; and `update_cell_para` accepts a dictionary containing the unknown
key `bogus` (with a negative value, even) without any error. -/
theorem C3_counterexample :
    (Animal.update_para herbTable [("eta", -1)]).2 =
      some ParamError.negativeValue ∧
    lookupKey (Animal.update_para herbTable [("eta", -1)]).1 "eta" =
      some (-1) ∧
    lookupKey herbTable "eta" = some 0.05 ∧
    Cell.update_cell_para ParamCellDefault "L" [("f_max", 5), ("bogus", -1)] =
      Except.ok ⟨5, 300⟩ := by
  refine ⟨?_, ?_, ?_, ?_⟩
  · simp [Animal.update_para, update_para_loop1, update_para_loop2,
      hasKey, setKey, herbTable]
  · simp [Animal.update_para, update_para_loop1, update_para_loop2,
      hasKey, setKey, lookupKey, herbTable]
  · simp [lookupKey, herbTable]
  · simp [Cell.update_cell_para, lookupKey, ParamCellDefault]

/-- One map cell (`Cell.Cell`): geography letter, fodder stock, herbivore
residents (`animal_list`) and carnivore residents (`Carnivores_list`). -/
structure CellQ where
  geography : Char
  fodder : ℚ
  animal_list : List AnimalQ
  Carnivores_list : List AnimalQ
deriving DecidableEq, Repr

/-- The feeding loop of `Cell.feed_animals` (after the shuffle): each
herbivore in order eats (`weight += beta*F`, `fodder -= F`) while the
remaining fodder is at least `F`; the loop `break`s at the first herbivore
that cannot be fed, leaving it and all later ones unchanged.  Returns the
remaining fodder and the processed list. -/
def feedLoop (P : AnimalParams) (fodder : ℚ) : List AnimalQ → ℚ × List AnimalQ
  | [] => (fodder, [])
  | a :: rest =>
    if P.F ≤ fodder then
      ((feedLoop P (fodder - P.F) rest).1,
        Herbivores.eat P a :: (feedLoop P (fodder - P.F) rest).2)
    else
      (fodder, a :: rest)

/-- `Cell.feed_animals`: shuffle the herbivore list (the permutation chosen
by `random.shuffle` is the oracle `σ`), then run the feeding loop, storing
the new fodder stock and herbivore list in the cell. -/
def Cell.feed_animals (P : AnimalParams) (σ : List AnimalQ → List AnimalQ)
    (c : CellQ) : CellQ :=
  {c with fodder := (feedLoop P c.fodder (σ c.animal_list)).1,
          animal_list := (feedLoop P c.fodder (σ c.animal_list)).2}

theorem feedLoop_spec (P : AnimalParams) :
    ∀ (l : List AnimalQ) (fodder : ℚ),
    ∃ k, k ≤ l.length ∧
      (feedLoop P fodder l).1 = fodder - k * P.F ∧
      (feedLoop P fodder l).2 = (l.take k).map (Herbivores.eat P) ++ l.drop k ∧
      (∀ i : ℕ, i < k → P.F ≤ fodder - i * P.F) ∧
      (k = l.length ∨ fodder - k * P.F < P.F) := by
  intro l
  induction l with
  | nil =>
    intro fodder
    exact ⟨0, le_refl _, by simp [feedLoop], by simp [feedLoop],
      fun i hi => absurd hi (by omega), Or.inl rfl⟩
  | cons a rest ih =>
    intro fodder
    by_cases h : P.F ≤ fodder
    · obtain ⟨k, hk1, hk2, hk3, hk4, hk5⟩ := ih (fodder - P.F)
      refine ⟨k + 1, by simpa using hk1, ?_, ?_, ?_, ?_⟩
      · simp only [feedLoop, if_pos h, hk2]
        push_cast
        ring
      · simp only [feedLoop, if_pos h, List.take_succ_cons, List.map_cons,
          List.drop_succ_cons, hk3, List.cons_append]
      · intro i hi
        cases i with
        | zero => simpa using h
        | succ j =>
          have hj := hk4 j (by omega)
          have : ((j + 1 : ℕ) : ℚ) * P.F = (j : ℚ) * P.F + P.F := by
            push_cast; ring
          rw [this]
          linarith
      · rcases hk5 with h5 | h5
        · left
          simp [h5]
        · right
          have he : fodder - ((k + 1 : ℕ) : ℚ) * P.F =
              fodder - P.F - (k : ℚ) * P.F := by push_cast; ring
          rw [he]
          exact h5
    · refine ⟨0, by omega, by simp [feedLoop, h], by simp [feedLoop, h],
        fun i hi => absurd hi (by omega), Or.inr ?_⟩
      push_neg at h
      simpa using h

/-- C7: in `Cell.feed_animals`, for every cell state with non-negative fodder
and a non-negative intake parameter `F`, there is a cut index `k` into the
shuffled order such that: exactly the first `k` herbivores eat (each checked
against the remaining stock and consuming exactly `F`, the rest unchanged),
the total fodder consumed is `k*F` and never exceeds the pre-feeding stock,
the stock stays non-negative at every intermediate step, and feeding stopped
either because every herbivore ate or because the remaining stock no longer
covers `F` (a hard stop: everyone after the first failure gets nothing). -/
theorem C7_feed_animals (P : AnimalParams) (σ : List AnimalQ → List AnimalQ)
    (c : CellQ) (h0 : 0 ≤ c.fodder) (hF : 0 ≤ P.F) :
    ∃ k, k ≤ (σ c.animal_list).length ∧
      (Cell.feed_animals P σ c).fodder = c.fodder - k * P.F ∧
      0 ≤ (Cell.feed_animals P σ c).fodder ∧
      c.fodder - (Cell.feed_animals P σ c).fodder = k * P.F ∧
      c.fodder - (Cell.feed_animals P σ c).fodder ≤ c.fodder ∧
      (∀ i : ℕ, i ≤ k → 0 ≤ c.fodder - i * P.F) ∧
      (∀ i : ℕ, i < k → P.F ≤ c.fodder - i * P.F) ∧
      (Cell.feed_animals P σ c).animal_list =
        ((σ c.animal_list).take k).map (Herbivores.eat P) ++
          (σ c.animal_list).drop k ∧
      (k = (σ c.animal_list).length ∨ c.fodder - k * P.F < P.F) := by
  obtain ⟨k, hk1, hk2, hk3, hk4, hk5⟩ := feedLoop_spec P (σ c.animal_list) c.fodder
  have hnn : ∀ i : ℕ, i ≤ k → 0 ≤ c.fodder - i * P.F := by
    intro i hi
    cases i with
    | zero => simpa using h0
    | succ j =>
      have hj := hk4 j (by omega)
      have : ((j + 1 : ℕ) : ℚ) * P.F = (j : ℚ) * P.F + P.F := by
        push_cast; ring
      rw [this]
      linarith
  refine ⟨k, hk1, ?_, ?_, ?_, ?_, hnn, hk4, ?_, hk5⟩
  · simpa [Cell.feed_animals] using hk2
  · have := hnn k (le_refl _)
    simpa [Cell.feed_animals, hk2] using this
  · simp only [Cell.feed_animals, hk2]
    ring
  · have := hnn k (le_refl _)
    simp only [Cell.feed_animals, hk2]
    have hkF : 0 ≤ (k : ℚ) * P.F := by positivity
    linarith
  · simpa [Cell.feed_animals] using hk3

/-- Witness for C7 at a concrete input: default herbivore parameters
(`F = 10`), fodder 25, three herbivores, identity shuffle — the feeding loop
admits the cut index required by the theorem. -/
theorem C7_feed_animals_witness :
    ∃ k, k ≤ ([⟨2, 5, false⟩, ⟨3, 6, false⟩, ⟨4, 7, false⟩] :
        List AnimalQ).length ∧
      (Cell.feed_animals herbParams id
        ⟨'L', 25, [⟨2, 5, false⟩, ⟨3, 6, false⟩, ⟨4, 7, false⟩], []⟩).fodder =
        25 - k * herbParams.F ∧
      0 ≤ (Cell.feed_animals herbParams id
        ⟨'L', 25, [⟨2, 5, false⟩, ⟨3, 6, false⟩, ⟨4, 7, false⟩], []⟩).fodder ∧
      (25 : ℚ) - (Cell.feed_animals herbParams id
        ⟨'L', 25, [⟨2, 5, false⟩, ⟨3, 6, false⟩, ⟨4, 7, false⟩], []⟩).fodder =
        k * herbParams.F ∧
      (25 : ℚ) - (Cell.feed_animals herbParams id
        ⟨'L', 25, [⟨2, 5, false⟩, ⟨3, 6, false⟩, ⟨4, 7, false⟩], []⟩).fodder ≤
        25 ∧
      (∀ i : ℕ, i ≤ k → 0 ≤ (25 : ℚ) - i * herbParams.F) ∧
      (∀ i : ℕ, i < k → herbParams.F ≤ (25 : ℚ) - i * herbParams.F) ∧
      (Cell.feed_animals herbParams id
        ⟨'L', 25, [⟨2, 5, false⟩, ⟨3, 6, false⟩, ⟨4, 7, false⟩], []⟩).animal_list =
        (([⟨2, 5, false⟩, ⟨3, 6, false⟩, ⟨4, 7, false⟩] :
          List AnimalQ).take k).map (Herbivores.eat herbParams) ++
          ([⟨2, 5, false⟩, ⟨3, 6, false⟩, ⟨4, 7, false⟩] :
            List AnimalQ).drop k ∧
      (k = ([⟨2, 5, false⟩, ⟨3, 6, false⟩, ⟨4, 7, false⟩] :
        List AnimalQ).length ∨ (25 : ℚ) - k * herbParams.F < herbParams.F) :=
  C7_feed_animals herbParams id
    ⟨'L', 25, [⟨2, 5, false⟩, ⟨3, 6, false⟩, ⟨4, 7, false⟩], []⟩
    (by norm_num) (by norm_num [herbParams])

/-- `Animal.die()` in the rational layer (fitness abstracted by `fitf`):
certain death when `weight == 0`, otherwise a coin with probability
`omega * (1 - fitness)`. -/
def dieQ (P : AnimalParams) (fitf : ℕ → ℚ → ℚ) (a : AnimalQ) (draw : Bool) :
    Bool :=
  if a.weight = 0 then true
  else choice2 (P.omega * (1 - fitnessQ fitf a)) draw

/-- A grid position (row, column). -/
abbrev Pos := ℕ × ℕ

/-- `Animal.migrate(neighbors)`: two successive coin flips with probability
`fitness * mu` (the idiosyncratic double gate in the source), then a uniform
choice among four slots holding the neighbours padded with `False` sentinels
(`len(neighbors)` cases in the source); `pick` is the oracle for the uniform
draw.  Returns the destination or `none` (both `False` and Python's implicit
`None` are falsy). -/
def Animal.migrate (P : AnimalParams) (fitf : ℕ → ℚ → ℚ) (a : AnimalQ)
    (neighbors : List Pos) (d1 d2 : Bool) (pick : ℕ) : Option Pos :=
  if choice2 (fitnessQ fitf a * P.mu) d1 then
    if choice2 (fitnessQ fitf a * P.mu) d2 then
      (neighbors.map some ++ List.replicate (4 - neighbors.length) none).getD
        (pick % 4) none
    else none
  else none

/-- The loop of `Cell.herbivore_birth` / `Cell.carnivore_birth`: iterate over
the resident list (Python never mutates it during the loop — babies are
appended only afterwards), calling `procreate(len(resident_list))` on each
animal; `full` is the list whose length Python reads at each call (always the
original residents, since the append happens after the loop).  Returns the
processed mothers, the babies in collection order, and the trace of `N`
values passed to `procreate`. -/
def birth_loopAux (P : AnimalParams) (fitf : ℕ → ℚ → ℚ) (full : List AnimalQ)
    (draws : ℕ → Bool) (babyWs : ℕ → ℚ) :
    List AnimalQ → ℕ → List AnimalQ × List AnimalQ × List ℕ
  | [], _ => ([], [], [])
  | a :: rest, k =>
    ((Animal.procreate P fitf a full.length (draws k) (babyWs k)).1 ::
        (birth_loopAux P fitf full draws babyWs rest (k + 1)).1,
      (Animal.procreate P fitf a full.length (draws k) (babyWs k)).2.toList ++
        (birth_loopAux P fitf full draws babyWs rest (k + 1)).2.1,
      full.length :: (birth_loopAux P fitf full draws babyWs rest (k + 1)).2.2)

/-- `Cell.herbivore_birth`: run the birth loop over `animal_list`, then
append the babies (`self.animal_list += baby_animal_list`); returns the
updated cell and the baby list. -/
def Cell.herbivore_birth (P : AnimalParams) (fitf : ℕ → ℚ → ℚ)
    (draws : ℕ → Bool) (babyWs : ℕ → ℚ) (c : CellQ) : CellQ × List AnimalQ :=
  ({c with animal_list :=
      (birth_loopAux P fitf c.animal_list draws babyWs c.animal_list 0).1 ++
        (birth_loopAux P fitf c.animal_list draws babyWs c.animal_list 0).2.1},
    (birth_loopAux P fitf c.animal_list draws babyWs c.animal_list 0).2.1)

/-- `Cell.carnivore_birth`: the same loop over `Carnivores_list`. -/
def Cell.carnivore_birth (P : AnimalParams) (fitf : ℕ → ℚ → ℚ)
    (draws : ℕ → Bool) (babyWs : ℕ → ℚ) (c : CellQ) : CellQ × List AnimalQ :=
  ({c with Carnivores_list :=
      (birth_loopAux P fitf c.Carnivores_list draws babyWs c.Carnivores_list 0).1 ++
        (birth_loopAux P fitf c.Carnivores_list draws babyWs c.Carnivores_list 0).2.1},
    (birth_loopAux P fitf c.Carnivores_list draws babyWs c.Carnivores_list 0).2.1)

theorem birth_loopAux_spec (P : AnimalParams) (fitf : ℕ → ℚ → ℚ)
    (full : List AnimalQ) (draws : ℕ → Bool) (babyWs : ℕ → ℚ) :
    ∀ (l : List AnimalQ) (k : ℕ),
    (birth_loopAux P fitf full draws babyWs l k).1.length = l.length ∧
    (birth_loopAux P fitf full draws babyWs l k).2.2 =
      List.replicate l.length full.length ∧
    (birth_loopAux P fitf full draws babyWs l k).2.1.length ≤ l.length := by
  intro l
  induction l with
  | nil => intro k; exact ⟨rfl, rfl, by simp [birth_loopAux]⟩
  | cons a rest ih =>
    intro k
    obtain ⟨ih1, ih2, ih3⟩ := ih (k + 1)
    refine ⟨?_, ?_, ?_⟩
    · simp only [birth_loopAux, List.length_cons, ih1]
    · simp only [birth_loopAux, List.length_cons, List.replicate_succ, ih2]
    · simp only [birth_loopAux, List.length_append, List.length_cons]
      have : (Animal.procreate P fitf a full.length (draws k)
          (babyWs k)).2.toList.length ≤ 1 := by
        cases (Animal.procreate P fitf a full.length (draws k) (babyWs k)).2
        · simp
        · simp
      omega

/-- C9: in the birth phase of a cell, every resident's `procreate` is invoked
with the same original pre-birth same-species count `N` (the trace of `N`
values is `replicate N N` for both species), there are exactly as many
attempts as original residents (so newborns attempt nothing), the newborns
are appended to the resident list only after all attempts (the updated list
is the processed mothers followed by the babies), and at most one baby per
original resident is produced. -/
theorem C9_birth_original_N (P : AnimalParams) (fitf : ℕ → ℚ → ℚ)
    (draws : ℕ → Bool) (babyWs : ℕ → ℚ) (c : CellQ) :
    (birth_loopAux P fitf c.animal_list draws babyWs c.animal_list 0).2.2 =
      List.replicate c.animal_list.length c.animal_list.length ∧
    (Cell.herbivore_birth P fitf draws babyWs c).1.animal_list =
      (birth_loopAux P fitf c.animal_list draws babyWs c.animal_list 0).1 ++
        (Cell.herbivore_birth P fitf draws babyWs c).2 ∧
    (birth_loopAux P fitf c.animal_list draws babyWs c.animal_list 0).1.length =
      c.animal_list.length ∧
    (Cell.herbivore_birth P fitf draws babyWs c).2.length ≤
      c.animal_list.length ∧
    (birth_loopAux P fitf c.Carnivores_list draws babyWs
        c.Carnivores_list 0).2.2 =
      List.replicate c.Carnivores_list.length c.Carnivores_list.length ∧
    (Cell.carnivore_birth P fitf draws babyWs c).1.Carnivores_list =
      (birth_loopAux P fitf c.Carnivores_list draws babyWs
        c.Carnivores_list 0).1 ++
        (Cell.carnivore_birth P fitf draws babyWs c).2 ∧
    (birth_loopAux P fitf c.Carnivores_list draws babyWs
        c.Carnivores_list 0).1.length = c.Carnivores_list.length ∧
    (Cell.carnivore_birth P fitf draws babyWs c).2.length ≤
      c.Carnivores_list.length := by
  obtain ⟨h1, h2, h3⟩ :=
    birth_loopAux_spec P fitf c.animal_list draws babyWs c.animal_list 0
  obtain ⟨g1, g2, g3⟩ :=
    birth_loopAux_spec P fitf c.Carnivores_list draws babyWs c.Carnivores_list 0
  exact ⟨h2, rfl, h1, h3, g2, rfl, g1, g3⟩

/-- `Animal.fitness_formula(plus_minus, x, x_half, phi_x)` — exactly
`1 / (1 + e ^ (plus_minus * phi_x * (x - x_half)))` over the reals
(`np.power(np.e, z)`).  Real-valued and noncomputable because the source
computes a transcendental function. -/
noncomputable def Animal.fitness_formula (pm x x_half phi_x : ℝ) : ℝ :=
  1 / (1 + Real.exp (pm * phi_x * (x - x_half)))

/-- `Animal.fitness_calculation(age, weight, parameter)`: the age term with
`plus_minus = 1`, the weight term with `plus_minus = -1`. -/
noncomputable def Animal.fitness_calculation (age weight : ℝ)
    (P : AnimalParams) : ℝ :=
  Animal.fitness_formula 1 age (P.a_half : ℝ) (P.phi_age : ℝ) *
    Animal.fitness_formula (-1) weight (P.w_half : ℝ) (P.phi_weight : ℝ)

/-- An animal with its exact real-valued weight, for the fitness/death
analysis. -/
structure AnimalR where
  age : ℕ
  weight : ℝ

/-- The `Animal.fitness` property over the exact formula: 0 when
`weight ≤ 0`. -/
noncomputable def Animal.fitness (P : AnimalParams) (a : AnimalR) : ℝ :=
  if a.weight ≤ 0 then 0
  else Animal.fitness_calculation (a.age : ℝ) a.weight P

/-- `choice2` over a real probability. -/
noncomputable def choice2R (prob : ℝ) (draw : Bool) : Bool :=
  if prob ≤ 0 then false else if 1 ≤ prob then true else draw

/-- `Animal.die()` with the exact fitness: certain death when `weight == 0`,
otherwise a weighted coin with probability `omega * (1 - fitness)`. -/
noncomputable def Animal.die (P : AnimalParams) (a : AnimalR) (draw : Bool) :
    Bool :=
  if a.weight = 0 then true
  else choice2R ((P.omega : ℝ) * (1 - Animal.fitness P a)) draw

/-- Herbivore parameters after `set_params({'omega': 0})`. -/
def herbOmega0 : AnimalParams :=
  {herbParams with omega := 0}

/-- Herbivore parameters after `set_params({'omega': 10})`. -/
def herbOmega10 : AnimalParams :=
  {herbParams with omega := 10}

/-- C8 (amended): `die()` returns true for every draw when `weight == 0`;
with `omega = 0` it returns false for every draw when `weight ≠ 0`; and it
returns true for every draw whenever the death probability
`omega * (1 - fitness)` has saturated to at least 1 (with `omega = 10` this
is exactly the animals of fitness at most 0.9 — not all animals). -/
theorem C8_die_certainties (P : AnimalParams) (a : AnimalR) (draw : Bool) :
    (a.weight = 0 → Animal.die P a draw = true) ∧
    (P.omega = 0 → a.weight ≠ 0 → Animal.die P a draw = false) ∧
    (1 ≤ (P.omega : ℝ) * (1 - Animal.fitness P a) →
      Animal.die P a draw = true) := by
  refine ⟨?_, ?_, ?_⟩
  · intro h
    unfold Animal.die
    rw [if_pos h]
  · intro homega hw
    unfold Animal.die choice2R
    rw [if_neg hw, if_pos (by rw [homega]; norm_num)]
  · intro hsat
    by_cases hw : a.weight = 0
    · unfold Animal.die
      rw [if_pos hw]
    · unfold Animal.die choice2R
      rw [if_neg hw, if_neg (by linarith), if_pos hsat]

/-- Witness for C8 at concrete inputs: a weight-0 animal always dies; with
`omega = 0` a weight-2 animal never dies; with `omega = 10` an old light
herbivore (age 100, weight 1, fitness at most `1/38`) always dies. -/
theorem C8_die_certainties_witness :
    Animal.die herbParams ⟨3, 0⟩ false = true ∧
    Animal.die herbOmega0 ⟨1, 2⟩ true = false ∧
    Animal.die herbOmega10 ⟨100, 1⟩ true = true := by
  refine ⟨(C8_die_certainties herbParams ⟨3, 0⟩ false).1 rfl,
    (C8_die_certainties herbOmega0 ⟨1, 2⟩ true).2.1 rfl (by norm_num),
    (C8_die_certainties herbOmega10 ⟨100, 1⟩ true).2.2 ?_⟩
  have h1 : (37 : ℝ) ≤ Real.exp 36 := by
    have := Real.add_one_le_exp (36 : ℝ)
    linarith
  have h2 : (0 : ℝ) < Real.exp 0.9 := Real.exp_pos _
  have hfit : Animal.fitness herbOmega10 ⟨100, 1⟩ =
      1 / (1 + Real.exp 36) * (1 / (1 + Real.exp 0.9)) := by
    unfold Animal.fitness Animal.fitness_calculation Animal.fitness_formula
    rw [if_neg (by norm_num)]
    norm_num [herbOmega10, herbParams]
  rw [hfit]
  have homega : ((herbOmega10.omega : ℚ) : ℝ) = 10 := by
    norm_num [herbOmega10, herbParams]
  rw [homega]
  have ht1pos : (0 : ℝ) < 1 + Real.exp 36 := by positivity
  have ht2pos : (0 : ℝ) < 1 + Real.exp 0.9 := by positivity
  have ht1 : (1 : ℝ) / (1 + Real.exp 36) ≤ 1 / 38 := by
    rw [div_le_div_iff ht1pos (by norm_num)]
    linarith
  have ht2 : (1 : ℝ) / (1 + Real.exp 0.9) ≤ 1 := by
    rw [div_le_one ht2pos]
    linarith
  have hprod : 1 / (1 + Real.exp 36) * (1 / (1 + Real.exp 0.9)) ≤ 1 / 38 := by
    calc 1 / (1 + Real.exp 36) * (1 / (1 + Real.exp 0.9)) ≤ (1 / 38) * 1 :=
        mul_le_mul ht1 ht2 (by positivity) (by norm_num)
      _ = 1 / 38 := by ring
  linarith

/-- Counterexample to C8 as stated: with `omega = 10`, a young heavy
herbivore (age 0, weight 1000) has fitness above 0.9, so the death
probability `10 * (1 - fitness)` is strictly below 1 and `die()` can return
false — `omega = 10` does *not* make `die()` always return true. -/
theorem C8_counterexample :
    Animal.die herbOmega10 ⟨0, 1000⟩ false = false := by
  have hfit : Animal.fitness herbOmega10 ⟨0, 1000⟩ =
      1 / (1 + Real.exp (-24)) * (1 / (1 + Real.exp (-99))) := by
    unfold Animal.fitness Animal.fitness_calculation Animal.fitness_formula
    rw [if_neg (by norm_num)]
    norm_num [herbOmega10, herbParams]
  have e24pos : (0 : ℝ) < Real.exp (-24) := Real.exp_pos _
  have e99pos : (0 : ℝ) < Real.exp (-99) := Real.exp_pos _
  have e24 : Real.exp (-24) ≤ 1 / 25 := by
    rw [Real.exp_neg]
    have h : (25 : ℝ) ≤ Real.exp 24 := by
      have := Real.add_one_le_exp (24 : ℝ)
      linarith
    have hpos := Real.exp_pos (24 : ℝ)
    rw [inv_eq_one_div, div_le_div_iff hpos (by norm_num)]
    linarith
  have e99 : Real.exp (-99) ≤ 1 / 100 := by
    rw [Real.exp_neg]
    have h : (100 : ℝ) ≤ Real.exp 99 := by
      have := Real.add_one_le_exp (99 : ℝ)
      linarith
    have hpos := Real.exp_pos (99 : ℝ)
    rw [inv_eq_one_div, div_le_div_iff hpos (by norm_num)]
    linarith
  have ht1pos : (0 : ℝ) < 1 + Real.exp (-24) := by positivity
  have ht2pos : (0 : ℝ) < 1 + Real.exp (-99) := by positivity
  have ht1lo : (25 : ℝ) / 26 ≤ 1 / (1 + Real.exp (-24)) := by
    rw [div_le_div_iff (by norm_num) ht1pos]
    linarith
  have ht2lo : (100 : ℝ) / 101 ≤ 1 / (1 + Real.exp (-99)) := by
    rw [div_le_div_iff (by norm_num) ht2pos]
    linarith
  have ht1hi : 1 / (1 + Real.exp (-24)) < 1 := by
    rw [div_lt_one ht1pos]
    linarith
  have ht2hi : 1 / (1 + Real.exp (-99)) ≤ 1 := by
    rw [div_le_one ht2pos]
    linarith
  have hflo : (25 : ℝ) / 26 * (100 / 101) ≤
      1 / (1 + Real.exp (-24)) * (1 / (1 + Real.exp (-99))) :=
    mul_le_mul ht1lo ht2lo (by norm_num) (by positivity)
  have hfhi : 1 / (1 + Real.exp (-24)) * (1 / (1 + Real.exp (-99))) < 1 := by
    calc 1 / (1 + Real.exp (-24)) * (1 / (1 + Real.exp (-99))) ≤
        1 / (1 + Real.exp (-24)) * 1 := by
          apply mul_le_mul_of_nonneg_left ht2hi (by positivity)
      _ < 1 := by rw [mul_one]; exact ht1hi
  unfold Animal.die choice2R
  rw [if_neg (by norm_num), hfit]
  have homega : ((herbOmega10.omega : ℚ) : ℝ) = 10 := by
    norm_num [herbOmega10, herbParams]
  rw [homega]
  rw [if_neg (by nlinarith), if_neg (by nlinarith)]

/-- An animal as constructed by `Animal.__init__(age=0, weight=None)`: the
`weight` argument defaults to `None`, so the stored weight is optional. -/
structure AnimalO where
  age : ℕ
  weight : Option ℚ
  moved : Bool
deriving DecidableEq, Repr

/-- `Animal.__init__(age, weight)`: stores both and sets `moved = False`. -/
def AnimalO.init (age : ℕ) (weight : Option ℚ) : AnimalO :=
  ⟨age, weight, false⟩

/-- An `Animal()` with both arguments left at their defaults
(`age=0, weight=None`). -/
def AnimalO.init_default : AnimalO :=
  AnimalO.init 0 none

/-- The `Animal.fitness` property on an optional weight: the comparison
`self.weight <= 0` raises `TypeError` when the weight is `None`. -/
noncomputable def AnimalO.fitness (P : AnimalParams) (a : AnimalO) :
    Except String ℝ :=
  match a.weight with
  | none => Except.error "TypeError"
  | some w =>
    Except.ok (if w ≤ 0 then 0
      else Animal.fitness_calculation (a.age : ℝ) (w : ℝ) P)

/-- `Animal.weight_loss_per_year` on an optional weight:
`self.weight * eta` raises `TypeError` when the weight is `None`. -/
def AnimalO.weight_loss_per_year (P : AnimalParams) (a : AnimalO) :
    Except String AnimalO :=
  match a.weight with
  | none => Except.error "TypeError"
  | some w =>
    Except.ok {a with weight := some (if w - w * P.eta < 0 then 0 else w - w * P.eta)}

/-- `Animal.procreate` on an optional weight: the probability
`gamma * self.fitness * N` evaluates the fitness property first, which
raises `TypeError` on a `None` weight; a numeric weight delegates to the
rational-layer `procreate`. -/
def AnimalO.procreate (P : AnimalParams) (fitf : ℕ → ℚ → ℚ) (a : AnimalO)
    (N : ℕ) (draw : Bool) (babyW : ℚ) :
    Except String (AnimalQ × Option AnimalQ) :=
  match a.weight with
  | none => Except.error "TypeError"
  | some w => Except.ok (Animal.procreate P fitf ⟨a.age, w, a.moved⟩ N draw babyW)

/-- `Animal.die` on an optional weight: `self.weight == 0` is simply `False`
for `None` (no error in Python), after which the fitness inside the death
probability raises `TypeError`. -/
def AnimalO.die (P : AnimalParams) (fitf : ℕ → ℚ → ℚ) (a : AnimalO)
    (draw : Bool) : Except String Bool :=
  if a.weight = some 0 then Except.ok true
  else
    match a.weight with
    | none => Except.error "TypeError"
    | some w =>
      Except.ok (choice2 (P.omega * (1 - fitnessQ fitf ⟨a.age, w, a.moved⟩)) draw)

/-- C10: an animal constructed with the default weight argument has weight
`None`, and on it `fitness`, `weight_loss_per_year`, `procreate` and `die`
all raise `TypeError` (they compare or do arithmetic on the `None` weight);
they are total only on numeric weights. -/
theorem C10_none_weight (P : AnimalParams) (fitf : ℕ → ℚ → ℚ) (age N : ℕ)
    (draw : Bool) (babyW : ℚ) :
    AnimalO.init_default.weight = none ∧
    (AnimalO.init age none).weight = none ∧
    AnimalO.fitness P (AnimalO.init age none) = Except.error "TypeError" ∧
    AnimalO.weight_loss_per_year P (AnimalO.init age none) =
      Except.error "TypeError" ∧
    AnimalO.procreate P fitf (AnimalO.init age none) N draw babyW =
      Except.error "TypeError" ∧
    AnimalO.die P fitf (AnimalO.init age none) draw =
      Except.error "TypeError" := by
  refine ⟨rfl, rfl, rfl, rfl, rfl, ?_⟩
  unfold AnimalO.die
  rw [if_neg (by simp [AnimalO.init])]
  rfl

/-- One population entry (`{'species': ..., 'age': ..., 'weight': ...}`). -/
structure FaunaDict where
  species : String
  age : ℕ
  weight : ℚ
deriving DecidableEq, Repr

/-- One population record (`{'loc': (row, col), 'pop': [...]}`), with the
1-indexed location of the external interface. -/
structure PopRecord where
  loc : Pos
  pop : List FaunaDict
deriving DecidableEq, Repr

/-- The island map state: dimensions, the terrain-letter array
(`island_map_array`) and the cell array (`cells_array`), both as functions of
(row, column). -/
structure MapState where
  rows : ℕ
  cols : ℕ
  geoA : Pos → Char
  cells : Pos → CellQ

/-- `Map.init_cells_array`: every position gets a fresh cell carrying its
terrain letter, fodder 0 and empty resident lists. -/
def Map.init (rows cols : ℕ) (geo : Pos → Char) : MapState :=
  ⟨rows, cols, geo, fun p => ⟨geo p, 0, [], []⟩⟩

/-- All positions of the grid in row-major order (`np.ndenumerate`). -/
def positionsList (rows cols : ℕ) : List Pos :=
  (List.range rows).flatMap (fun i => (List.range cols).map (fun j => (i, j)))

theorem mem_positionsList (rows cols : ℕ) (p : Pos) :
    p ∈ positionsList rows cols ↔ p.1 < rows ∧ p.2 < cols := by
  cases p with
  | mk i j =>
    simp [positionsList, List.mem_flatMap, List.mem_map, List.mem_range]

theorem nodup_positionsList (rows cols : ℕ) :
    (positionsList rows cols).Nodup := by
  apply List.nodup_flatMap.mpr
  constructor
  · intro i _
    exact List.Nodup.map (fun a b h => by simpa using h) (List.nodup_range cols)
  · apply List.Pairwise.imp ?_ (List.pairwise_lt_range rows)
    intro i j hij
    simp only [Function.onFun, List.disjoint_left]
    rintro p hp hq
    obtain ⟨a, -, rfl⟩ := List.mem_map.mp hp
    obtain ⟨b, -, hb⟩ := List.mem_map.mp hq
    have : i = j := by simpa using congrArg Prod.fst hb.symm
    omega

/-- `Cell.produce_fodder`: no fodder for Water/Desert, `f_max_L` for Lowland,
`f_max_H` otherwise. -/
def Cell.produce_fodder (pc : ParamCell) (c : CellQ) : CellQ :=
  if c.geography = 'W' ∨ c.geography = 'D' then {c with fodder := c.fodder + 0}
  else if c.geography = 'L' then {c with fodder := c.fodder + pc.f_max_L}
  else {c with fodder := c.fodder + pc.f_max_H}

/-- Herbivores sorted by ascending weight (`sorted(..., key=weight)`; Python's
sort is stable, as is `mergeSort`). -/
def sortHerbAsc (l : List AnimalQ) : List AnimalQ :=
  l.mergeSort (fun a b => decide (a.weight ≤ b.weight))

/-- Carnivores sorted by descending weight (`sorted(..., reverse=True)`). -/
def sortCarnDesc (l : List AnimalQ) : List AnimalQ :=
  l.mergeSort (fun a b => decide (b.weight ≤ a.weight))

/-- The carnivore loop of `Cell.feed_carnivores`: each carnivore in turn is
presented the current herbivores sorted by ascending weight, eats, and the
eaten herbivores are removed (`list.remove` by first value match) before the
next carnivore hunts.  Returns the processed carnivores and the surviving
herbivores. -/
def feedCarnLoop (P : AnimalParams) (fitfC fitfH : ℕ → ℚ → ℚ)
    (cdraws : ℕ → ℕ → Bool) :
    List AnimalQ → ℕ → List AnimalQ → List AnimalQ × List AnimalQ
  | [], _, herbs => ([], herbs)
  | cn :: rest, k, herbs =>
    ((Carnivores.eat P fitfC fitfH cn (sortHerbAsc herbs) (cdraws k)).1 ::
        (feedCarnLoop P fitfC fitfH cdraws rest (k + 1)
          ((Carnivores.eat P fitfC fitfH cn (sortHerbAsc herbs)
            (cdraws k)).2.foldl (fun acc h => acc.erase h)
            (sortHerbAsc herbs))).1,
      (feedCarnLoop P fitfC fitfH cdraws rest (k + 1)
        ((Carnivores.eat P fitfC fitfH cn (sortHerbAsc herbs)
          (cdraws k)).2.foldl (fun acc h => acc.erase h)
          (sortHerbAsc herbs))).2)

/-- `Cell.feed_carnivores`: nothing happens without carnivores; otherwise the
carnivores hunt in descending-weight order. -/
def Cell.feed_carnivores (P : AnimalParams) (fitfC fitfH : ℕ → ℚ → ℚ)
    (cdraws : ℕ → ℕ → Bool) (c : CellQ) : CellQ :=
  if 0 < c.Carnivores_list.length then
    {c with
      animal_list := (feedCarnLoop P fitfC fitfH cdraws
        (sortCarnDesc c.Carnivores_list) 0 c.animal_list).2,
      Carnivores_list := (feedCarnLoop P fitfC fitfH cdraws
        (sortCarnDesc c.Carnivores_list) 0 c.animal_list).1}
  else c

/-- `Cell.grow_and_loose_weight_herbivore`: every herbivore ages one year and
then loses weight. -/
def Cell.grow_and_loose_weight_herbivore (P : AnimalParams) (c : CellQ) :
    CellQ :=
  {c with animal_list := c.animal_list.map (fun a => Animal.weight_loss_per_year P (Animal.growth_per_year a))}

/-- `Cell.grow_and_loose_weight_carnivore`. -/
def Cell.grow_and_loose_weight_carnivore (P : AnimalParams) (c : CellQ) :
    CellQ :=
  {c with Carnivores_list := c.Carnivores_list.map (fun a => Animal.weight_loss_per_year P (Animal.growth_per_year a))}

/-- The death loop of `Cell.herbivore_death` / `carnivore_death`: collect the
animals whose `die()` returns true and remove them (removal by first value
match equals filtering, up to value equality).  Returns survivors and the
died list. -/
def deathLoop (P : AnimalParams) (fitf : ℕ → ℚ → ℚ) (draws : ℕ → Bool) :
    List AnimalQ → ℕ → List AnimalQ × List AnimalQ
  | [], _ => ([], [])
  | a :: rest, k =>
    if dieQ P fitf a (draws k) then
      ((deathLoop P fitf draws rest (k + 1)).1,
        a :: (deathLoop P fitf draws rest (k + 1)).2)
    else
      (a :: (deathLoop P fitf draws rest (k + 1)).1,
        (deathLoop P fitf draws rest (k + 1)).2)

/-- `Cell.herbivore_death`: survivors stay, the died list is returned. -/
def Cell.herbivore_death (P : AnimalParams) (fitf : ℕ → ℚ → ℚ)
    (draws : ℕ → Bool) (c : CellQ) : CellQ × List AnimalQ :=
  ({c with animal_list := (deathLoop P fitf draws c.animal_list 0).1},
    (deathLoop P fitf draws c.animal_list 0).2)

/-- `Cell.carnivore_death`. -/
def Cell.carnivore_death (P : AnimalParams) (fitf : ℕ → ℚ → ℚ)
    (draws : ℕ → Bool) (c : CellQ) : CellQ × List AnimalQ :=
  ({c with Carnivores_list := (deathLoop P fitf draws c.Carnivores_list 0).1},
    (deathLoop P fitf draws c.Carnivores_list 0).2)

/-- The migration loop of `Cell.animal_migration` for one species list: an
animal already flagged `moved` stays (and consumes no choice); otherwise
`migrate` is asked, and on a destination the animal is flagged `moved` and
recorded as a transfer to that cell.  Returns the stayers (in order) and the
transfers (in order). -/
def migLoop (P : AnimalParams) (fitf : ℕ → ℚ → ℚ) (neighbors : List Pos)
    (dec : ℕ → Bool × Bool × ℕ) :
    List AnimalQ → ℕ → List AnimalQ × List (AnimalQ × Pos)
  | [], _ => ([], [])
  | a :: rest, k =>
    if a.moved then
      (a :: (migLoop P fitf neighbors dec rest (k + 1)).1,
        (migLoop P fitf neighbors dec rest (k + 1)).2)
    else
      match Animal.migrate P fitf a neighbors (dec k).1 (dec k).2.1
          (dec k).2.2 with
      | some q =>
        ((migLoop P fitf neighbors dec rest (k + 1)).1,
          ({a with moved := true}, q) ::
            (migLoop P fitf neighbors dec rest (k + 1)).2)
      | none =>
        (a :: (migLoop P fitf neighbors dec rest (k + 1)).1,
          (migLoop P fitf neighbors dec rest (k + 1)).2)

/-- `Cell.animal_migration(neighbors)`: the herbivore loop, then the
carnivore loop; the cell keeps only the stayers, and the transfers are
appended into the destination cells by the caller (`Map.migrate`). -/
def Cell.animal_migration (PH PC : AnimalParams) (fitfH fitfC : ℕ → ℚ → ℚ)
    (neighbors : List Pos) (decH decC : ℕ → Bool × Bool × ℕ) (c : CellQ) :
    CellQ × List (AnimalQ × Pos) × List (AnimalQ × Pos) :=
  ({c with animal_list := (migLoop PH fitfH neighbors decH c.animal_list 0).1, Carnivores_list := (migLoop PC fitfC neighbors decC c.Carnivores_list 0).1},
    (migLoop PH fitfH neighbors decH c.animal_list 0).2,
    (migLoop PC fitfC neighbors decC c.Carnivores_list 0).2)

/-- `Map.get_neighbors(i, j)`: the up-to-four adjacent in-bounds cells that
are not Water, in source order up, down, left, right (bounds against
`shape - 1`). -/
def Map.get_neighbors (m : MapState) (i j : ℕ) : List Pos :=
  (if 0 < i ∧ (m.cells (i - 1, j)).geography ≠ 'W' then [((i - 1 : ℕ), j)] else []) ++
  (if i < m.rows - 1 ∧ (m.cells (i + 1, j)).geography ≠ 'W' then [((i + 1 : ℕ), j)] else []) ++
  (if 0 < j ∧ (m.cells (i, j - 1)).geography ≠ 'W' then [(i, (j - 1 : ℕ))] else []) ++
  (if j < m.cols - 1 ∧ (m.cells (i, j + 1)).geography ≠ 'W' then [(i, (j + 1 : ℕ))] else [])

/-- `destination.animal_list.append(animal)`. -/
def appendHerb (c : CellQ) (a : AnimalQ) : CellQ :=
  {c with animal_list := c.animal_list ++ [a]}

/-- `destination.Carnivores_list.append(animal)`. -/
def appendCarn (c : CellQ) (a : AnimalQ) : CellQ :=
  {c with Carnivores_list := c.Carnivores_list ++ [a]}

/-- Apply the recorded herbivore transfers, appending each animal to its
destination cell in order. -/
def applyMovesH (g : Pos → CellQ) : List (AnimalQ × Pos) → (Pos → CellQ)
  | [] => g
  | x :: rest => applyMovesH (Function.update g x.2 (appendHerb (g x.2) x.1)) rest

/-- Apply the recorded carnivore transfers. -/
def applyMovesC (g : Pos → CellQ) : List (AnimalQ × Pos) → (Pos → CellQ)
  | [] => g
  | x :: rest => applyMovesC (Function.update g x.2 (appendCarn (g x.2) x.1)) rest

/-- The per-run configuration: the two species parameter tables, the
landscape table, and the two species fitness functions. -/
structure SimCfg where
  PH : AnimalParams
  PC : AnimalParams
  pc : ParamCell
  fitfH : ℕ → ℚ → ℚ
  fitfC : ℕ → ℚ → ℚ

/-- All random draws of one annual cycle, indexed by cell position and, per
cell, by iteration counters. -/
structure CycleO where
  shuffle : Pos → List AnimalQ → List AnimalQ
  huntD : Pos → ℕ → ℕ → Bool
  birthHd : Pos → ℕ → Bool
  birthHw : Pos → ℕ → ℚ
  birthCd : Pos → ℕ → Bool
  birthCw : Pos → ℕ → ℚ
  migH : Pos → ℕ → Bool × Bool × ℕ
  migC : Pos → ℕ → Bool × Bool × ℕ
  dieH : Pos → ℕ → Bool
  dieC : Pos → ℕ → Bool

/-- `Map.produce`: fodder production on the cells whose terrain letter is
`'L'` or `'H'` only. -/
def Map.produce (g : SimCfg) (m : MapState) : MapState :=
  {m with cells := fun p => if m.geoA p = 'L' ∨ m.geoA p = 'H' then Cell.produce_fodder g.pc (m.cells p) else m.cells p}

/-- `Map.givebirth`: herbivore births then carnivore births on every
non-Water cell. -/
def Map.givebirth (g : SimCfg) (Ω : CycleO) (m : MapState) : MapState :=
  {m with cells := fun p => if m.geoA p ≠ 'W' then (Cell.carnivore_birth g.PC g.fitfC (Ω.birthCd p) (Ω.birthCw p) (Cell.herbivore_birth g.PH g.fitfH (Ω.birthHd p) (Ω.birthHw p) (m.cells p)).1).1 else m.cells p}

/-- `Map.feed`: herbivores feed, then carnivores hunt, on every non-Water
cell. -/
def Map.feed (g : SimCfg) (Ω : CycleO) (m : MapState) : MapState :=
  {m with cells := fun p => if m.geoA p ≠ 'W' then Cell.feed_carnivores g.PC g.fitfC g.fitfH (Ω.huntD p) (Cell.feed_animals g.PH (Ω.shuffle p) (m.cells p)) else m.cells p}

/-- Reset one cell's `moved` flags. -/
def movedReset (c : CellQ) : CellQ :=
  {c with animal_list := c.animal_list.map (fun a => {a with moved := false}), Carnivores_list := c.Carnivores_list.map (fun a => {a with moved := false})}

/-- `Map.move_permit`: a separate pass resetting every animal's `moved` flag
on every non-Water cell, before migration. -/
def Map.move_permit (m : MapState) : MapState :=
  {m with cells := fun p => if m.geoA p ≠ 'W' then movedReset (m.cells p) else m.cells p}

/-- One step of the migration sweep (`np.ndenumerate` body): skip Water
cells; otherwise run `animal_migration` with the cell's neighbours and
transfer the migrants into their destination cells. -/
def Map.migrateStep (g : SimCfg) (Ω : CycleO) (m : MapState) (p : Pos) :
    MapState :=
  if (m.cells p).geography ≠ 'W' then
    {m with cells := applyMovesC (applyMovesH (Function.update m.cells p (Cell.animal_migration g.PH g.PC g.fitfH g.fitfC (Map.get_neighbors m p.1 p.2) (Ω.migH p) (Ω.migC p) (m.cells p)).1) (Cell.animal_migration g.PH g.PC g.fitfH g.fitfC (Map.get_neighbors m p.1 p.2) (Ω.migH p) (Ω.migC p) (m.cells p)).2.1) (Cell.animal_migration g.PH g.PC g.fitfH g.fitfC (Map.get_neighbors m p.1 p.2) (Ω.migH p) (Ω.migC p) (m.cells p)).2.2}
  else m

/-- `Map.migrate`: the row-major sweep over the whole grid. -/
def Map.migrate (g : SimCfg) (Ω : CycleO) (m : MapState) : MapState :=
  (positionsList m.rows m.cols).foldl (Map.migrateStep g Ω) m

/-- `Map.grow_loss`: aging and weight loss for both species on every
non-Water cell. -/
def Map.grow_loss (g : SimCfg) (m : MapState) : MapState :=
  {m with cells := fun p => if m.geoA p ≠ 'W' then Cell.grow_and_loose_weight_carnivore g.PC (Cell.grow_and_loose_weight_herbivore g.PH (m.cells p)) else m.cells p}

/-- `Map.reset_fodder`: fodder back to 0 on every non-Water cell. -/
def Map.reset_fodder (m : MapState) : MapState :=
  {m with cells := fun p => if m.geoA p ≠ 'W' then {m.cells p with fodder := 0} else m.cells p}

/-- `Map.die`: death evaluation for both species on every non-Water cell. -/
def Map.die (g : SimCfg) (Ω : CycleO) (m : MapState) : MapState :=
  {m with cells := fun p => if m.geoA p ≠ 'W' then (Cell.carnivore_death g.PC g.fitfC (Ω.dieC p) (Cell.herbivore_death g.PH g.fitfH (Ω.dieH p) (m.cells p)).1).1 else m.cells p}

/-- `Map.annul_cycle`: the eight phases in source order (the statistics
returned by the Python method are read-only recomputations and are modelled
by the queries below). -/
def Map.annul_cycle (g : SimCfg) (Ω : CycleO) (m : MapState) : MapState :=
  Map.die g Ω (Map.reset_fodder (Map.grow_loss g (Map.migrate g Ω (Map.move_permit (Map.feed g Ω (Map.givebirth g Ω (Map.produce g m)))))))

/-- The herbivores constructed from one population record
(`Animal.Herbivores(age, weight)` for each `'Herbivore'` entry, in order). -/
def recordHerbs (r : PopRecord) : List AnimalQ :=
  (r.pop.filter (fun fd => fd.species = "Herbivore")).map (fun fd => ⟨fd.age, fd.weight, false⟩)

/-- The carnivores constructed from one population record. -/
def recordCarns (r : PopRecord) : List AnimalQ :=
  (r.pop.filter (fun fd => fd.species = "Carnivore")).map (fun fd => ⟨fd.age, fd.weight, false⟩)

/-- `Map.add_fauna(population)`: empty input returns `(0, 0)`; otherwise each
record's animals are appended to the cell at its (1-indexed, converted)
location — but the counters `animal_num` / `Carnivores_num` are re-initialised
to 0 *inside* the record loop, so the returned counts are those of the *last*
record only. -/
def Map.add_fauna (m : MapState) (population : List PopRecord) :
    MapState × ℕ × ℕ :=
  if population.length = 0 then (m, 0, 0)
  else population.foldl (fun acc r => ({acc.1 with cells := Function.update acc.1.cells (r.loc.1 - 1, r.loc.2 - 1) {acc.1.cells (r.loc.1 - 1, r.loc.2 - 1) with animal_list := (acc.1.cells (r.loc.1 - 1, r.loc.2 - 1)).animal_list ++ recordHerbs r, Carnivores_list := (acc.1.cells (r.loc.1 - 1, r.loc.2 - 1)).Carnivores_list ++ recordCarns r}}, (recordHerbs r).length, (recordCarns r).length)) (m, 0, 0)

/-- The counter state of the `BioSim` front end. -/
structure BioSimState where
  year : ℕ
  herbivores_num : ℕ
  carnivores_num : ℕ
  map_instance : MapState

/-- `BioSim.add_population`: delegates to `Map.add_fauna`; the running totals
are updated from the returned counts only when `year != 0`; the counts are
also returned. -/
def BioSim.add_population (s : BioSimState) (population : List PopRecord) :
    BioSimState × ℕ × ℕ :=
  if s.year ≠ 0 then
    ({s with map_instance := (Map.add_fauna s.map_instance population).1, herbivores_num := s.herbivores_num + (Map.add_fauna s.map_instance population).2.1, carnivores_num := s.carnivores_num + (Map.add_fauna s.map_instance population).2.2},
      (Map.add_fauna s.map_instance population).2)
  else
    ({s with map_instance := (Map.add_fauna s.map_instance population).1},
      (Map.add_fauna s.map_instance population).2)

/-- The population-seeding part of `BioSim.__init__`: `year = 0`, a fresh
map, then `self._herbivores_num, self._carnivores_num =
self.add_population(ini_pop)`. -/
def BioSim.init_pop (m : MapState) (ini_pop : List PopRecord) : BioSimState :=
  {(BioSim.add_population ⟨0, 0, 0, m⟩ ini_pop).1 with herbivores_num := (BioSim.add_population ⟨0, 0, 0, m⟩ ini_pop).2.1, carnivores_num := (BioSim.add_population ⟨0, 0, 0, m⟩ ini_pop).2.2}

/-- `BioSim.num_animals`: the sum of the two counters. -/
def BioSim.num_animals (s : BioSimState) : ℕ :=
  s.herbivores_num + s.carnivores_num

/-- The number of animals physically present on the map (what the per-cycle
query recomputes from the cell lists). -/
def Map.num_animals_map (m : MapState) : ℕ :=
  ((positionsList m.rows m.cols).map (fun p => (m.cells p).animal_list.length + (m.cells p).Carnivores_list.length)).sum

/-- The 3×3 island `WWW / WLW / WWW`. -/
def c2Island : MapState :=
  Map.init 3 3 (fun p => if p = (1, 1) then 'L' else 'W')

/-- Two population records at the Lowland cell: first one herbivore, then one
carnivore. -/
def c2Pop : List PopRecord :=
  [⟨(2, 2), [⟨"Herbivore", 5, 20⟩]⟩, ⟨(2, 2), [⟨"Carnivore", 5, 20⟩]⟩]

/-- C2 (code bug): with two population records — one herbivore record then
one carnivore record — `Map.add_fauna` returns `(0, 1)` instead of the
documented totals `(1, 1)` (its counters are reset inside the record loop),
so `BioSim.num_animals` immediately after seeding reports 1 while the map
actually holds 2 animals. -/
theorem C2_add_fauna_bug :
    (Map.add_fauna c2Island c2Pop).2 = (0, 1) ∧
    BioSim.num_animals (BioSim.init_pop c2Island c2Pop) = 1 ∧
    Map.num_animals_map (BioSim.init_pop c2Island c2Pop).map_instance = 2 := by
  refine ⟨?_, ?_, ?_⟩
  · simp [Map.add_fauna, c2Island, c2Pop, recordHerbs, recordCarns, Map.init]
  · simp [BioSim.num_animals, BioSim.init_pop, BioSim.add_population,
      Map.add_fauna, c2Island, c2Pop, recordHerbs, recordCarns, Map.init]
  · simp [BioSim.init_pop, BioSim.add_population, Map.add_fauna,
      Map.num_animals_map, positionsList, c2Island, c2Pop, recordHerbs,
      recordCarns, Map.init, Function.update, List.range_succ]

theorem mem_ite_single {α : Type} (c : Prop) [Decidable c] (x a : α) :
    a ∈ (if c then [x] else ([] : List α)) ↔ c ∧ a = x := by
  split_ifs with h <;> simp [h]

theorem mem_get_neighbors (m : MapState) (i j : ℕ) (q : Pos) :
    q ∈ Map.get_neighbors m i j ↔
      (0 < i ∧ (m.cells (i - 1, j)).geography ≠ 'W' ∧ q = (i - 1, j)) ∨
      (i < m.rows - 1 ∧ (m.cells (i + 1, j)).geography ≠ 'W' ∧ q = (i + 1, j)) ∨
      (0 < j ∧ (m.cells (i, j - 1)).geography ≠ 'W' ∧ q = (i, j - 1)) ∨
      (j < m.cols - 1 ∧ (m.cells (i, j + 1)).geography ≠ 'W' ∧ q = (i, j + 1)) := by
  unfold Map.get_neighbors
  simp only [List.mem_append, mem_ite_single]
  tauto

theorem get_neighbors_len (m : MapState) (i j : ℕ) :
    (Map.get_neighbors m i j).length ≤ 4 := by
  unfold Map.get_neighbors
  split_ifs <;> simp

theorem get_neighbors_nonwater (m : MapState) (i j : ℕ) (q : Pos)
    (hq : q ∈ Map.get_neighbors m i j) : (m.cells q).geography ≠ 'W' := by
  rcases (mem_get_neighbors m i j q).mp hq with ⟨-, h, rfl⟩ | ⟨-, h, rfl⟩ |
    ⟨-, h, rfl⟩ | ⟨-, h, rfl⟩ <;> exact h

theorem get_neighbors_bounds (m : MapState) (i j : ℕ) (hi : i < m.rows)
    (hj : j < m.cols) (q : Pos) (hq : q ∈ Map.get_neighbors m i j) :
    q.1 < m.rows ∧ q.2 < m.cols := by
  rcases (mem_get_neighbors m i j q).mp hq with ⟨h, -, rfl⟩ | ⟨h, -, rfl⟩ |
    ⟨h, -, rfl⟩ | ⟨h, -, rfl⟩ <;> constructor <;> simp <;> omega

theorem migrate_dest_mem (P : AnimalParams) (fitf : ℕ → ℚ → ℚ) (a : AnimalQ)
    (nb : List Pos) (d1 d2 : Bool) (pick : ℕ) (q : Pos)
    (h : Animal.migrate P fitf a nb d1 d2 pick = some q) : q ∈ nb := by
  unfold Animal.migrate at h
  split_ifs at h
  rw [List.getD_eq_getElem?_getD] at h
  rcases hg : (nb.map some ++ List.replicate (4 - nb.length) none)[pick % 4]?
    with - | o
  · rw [hg] at h
    exact absurd h (by simp)
  · rw [hg] at h
    simp only [Option.getD_some] at h
    subst h
    have hmem := List.getElem?_mem hg
    rcases List.mem_append.mp hmem with hh | hh
    · obtain ⟨b, hb, he⟩ := List.mem_map.mp hh
      rwa [← Option.some_inj.mp he]
    · exact absurd (List.eq_of_mem_replicate hh) (by simp)

/-- The erased identity of an animal: its (age, weight) pair, insensitive to
the `moved` flag that migration toggles. -/
def animalKey (a : AnimalQ) : ℕ × ℚ :=
  (a.age, a.weight)

theorem migLoop_spec (P : AnimalParams) (fitf : ℕ → ℚ → ℚ) (nb : List Pos)
    (dec : ℕ → Bool × Bool × ℕ) : ∀ (l : List AnimalQ) (k : ℕ),
    (∀ a ∈ l, a.moved = true → a ∈ (migLoop P fitf nb dec l k).1) ∧
    (∀ x ∈ (migLoop P fitf nb dec l k).2, x.1.moved = true ∧ x.2 ∈ nb) ∧
    ((l.map animalKey : Multiset (ℕ × ℚ)) =
      ((migLoop P fitf nb dec l k).1.map animalKey : Multiset (ℕ × ℚ)) +
      ((migLoop P fitf nb dec l k).2.map (fun x => animalKey x.1) :
        Multiset (ℕ × ℚ))) ∧
    ((∀ a ∈ l, a.moved = true) → migLoop P fitf nb dec l k = (l, [])) := by
  intro l
  induction l with
  | nil =>
    intro k
    refine ⟨by simp, by simp [migLoop], by simp [migLoop], fun _ => rfl⟩
  | cons a rest ih =>
    intro k
    obtain ⟨ih1, ih2, ih3, ih4⟩ := ih (k + 1)
    by_cases hm : a.moved
    · refine ⟨?_, ?_, ?_, ?_⟩
      · intro b hb hbm
        simp only [migLoop, if_pos hm]
        rcases List.mem_cons.mp hb with h | h
        · exact h ▸ List.mem_cons_self _ _
        · exact List.mem_cons_of_mem _ (ih1 b h hbm)
      · intro x hx
        simp only [migLoop, if_pos hm] at hx
        exact ih2 x hx
      · simp only [migLoop, if_pos hm, List.map_cons]
        rw [← Multiset.cons_coe, ← Multiset.cons_coe, ih3, Multiset.cons_add]
      · intro hall
        simp only [migLoop, if_pos hm, ih4 (fun b hb => hall b
          (List.mem_cons_of_mem _ hb))]
    · refine ⟨?_, ?_, ?_, ?_⟩
      · intro b hb hbm
        simp only [migLoop, if_neg hm]
        rcases List.mem_cons.mp hb with h | h
        · exact absurd (h ▸ hbm) (by simpa using hm)
        · cases hmg : Animal.migrate P fitf a nb (dec k).1 (dec k).2.1
            (dec k).2.2 with
          | none => exact List.mem_cons_of_mem _ (ih1 b h hbm)
          | some q => exact ih1 b h hbm
      · intro x hx
        simp only [migLoop, if_neg hm] at hx
        cases hmg : Animal.migrate P fitf a nb (dec k).1 (dec k).2.1
            (dec k).2.2 with
        | none =>
          rw [hmg] at hx
          exact ih2 x hx
        | some q =>
          rw [hmg] at hx
          rcases List.mem_cons.mp hx with h | h
          · subst h
            exact ⟨rfl, migrate_dest_mem P fitf a nb _ _ _ q hmg⟩
          · exact ih2 x h
      · simp only [migLoop, if_neg hm]
        cases hmg : Animal.migrate P fitf a nb (dec k).1 (dec k).2.1
            (dec k).2.2 with
        | none =>
          simp only [List.map_cons]
          rw [← Multiset.cons_coe, ← Multiset.cons_coe, ih3, Multiset.cons_add]
        | some q =>
          simp only [List.map_cons]
          rw [← Multiset.cons_coe, ← Multiset.cons_coe, ih3, Multiset.add_cons]
          rfl
      · intro hall
        exact absurd (hall a (List.mem_cons_self _ _)) (by simpa using hm)

/-- The erased multiset of a cell's herbivores. -/
def herbKeys (c : CellQ) : Multiset (ℕ × ℚ) :=
  (c.animal_list.map animalKey : List (ℕ × ℚ))

/-- The erased multiset of a cell's carnivores. -/
def carnKeys (c : CellQ) : Multiset (ℕ × ℚ) :=
  (c.Carnivores_list.map animalKey : List (ℕ × ℚ))

/-- The erased multiset of all herbivores on the island. -/
def totalHerbKeys (m : MapState) : Multiset (ℕ × ℚ) :=
  ((positionsList m.rows m.cols).map (fun p => herbKeys (m.cells p))).sum

/-- The erased multiset of all carnivores on the island. -/
def totalCarnKeys (m : MapState) : Multiset (ℕ × ℚ) :=
  ((positionsList m.rows m.cols).map (fun p => carnKeys (m.cells p))).sum

theorem sum_map_update (f : CellQ → Multiset (ℕ × ℚ)) (g : Pos → CellQ)
    (p : Pos) (c : CellQ) :
    ∀ L : List Pos, L.Nodup → p ∈ L →
    (L.map (fun q => f (Function.update g p c q))).sum + f (g p) =
    (L.map (fun q => f (g q))).sum + f c := by
  intro L
  induction L with
  | nil => intro _ hp; exact absurd hp (by simp)
  | cons x L ih =>
    intro hnd hp
    rcases List.mem_cons.mp hp with h | h
    · subst h
      have hnp : p ∉ L := (List.nodup_cons.mp hnd).1
      simp only [List.map_cons, List.sum_cons, Function.update_same]
      have hmap : L.map (fun q => f (Function.update g p c q)) =
          L.map (fun q => f (g q)) :=
        List.map_congr_left (fun q hq => by
          rw [Function.update_noteq (fun (he : q = p) => hnp (he ▸ hq))])
      rw [hmap]
      abel
    · have hxp : x ≠ p := fun he => (List.nodup_cons.mp hnd).1 (he ▸ h)
      simp only [List.map_cons, List.sum_cons]
      rw [Function.update_noteq hxp]
      rw [add_assoc, ih (List.nodup_cons.mp hnd).2 h, ← add_assoc]

theorem herbKeys_appendHerb (c : CellQ) (a : AnimalQ) :
    herbKeys (appendHerb c a) = herbKeys c + {animalKey a} := by
  show ((c.animal_list ++ [a]).map animalKey : List (ℕ × ℚ)) =
    herbKeys c + {animalKey a}
  rw [List.map_append]
  rfl

theorem carnKeys_appendCarn (c : CellQ) (a : AnimalQ) :
    carnKeys (appendCarn c a) = carnKeys c + {animalKey a} := by
  show ((c.Carnivores_list ++ [a]).map animalKey : List (ℕ × ℚ)) =
    carnKeys c + {animalKey a}
  rw [List.map_append]
  rfl

theorem applyMovesH_total :
    ∀ (ms : List (AnimalQ × Pos)) (g : Pos → CellQ) (L : List Pos), L.Nodup →
    (∀ x ∈ ms, x.2 ∈ L) →
    (L.map (fun q => herbKeys (applyMovesH g ms q))).sum =
    (L.map (fun q => herbKeys (g q))).sum +
      (ms.map (fun x => animalKey x.1) : List (ℕ × ℚ)) := by
  intro ms
  induction ms with
  | nil => intro g L _ _; simp [applyMovesH]
  | cons x ms ih =>
    intro g L hnd hdest
    have hx : x.2 ∈ L := hdest x (List.mem_cons_self _ _)
    simp only [applyMovesH]
    rw [ih _ L hnd (fun y hy => hdest y (List.mem_cons_of_mem _ hy))]
    have hu := sum_map_update herbKeys g x.2 (appendHerb (g x.2) x.1) L hnd hx
    rw [herbKeys_appendHerb] at hu
    have hu2 : (L.map (fun q => herbKeys (Function.update g x.2
        (appendHerb (g x.2) x.1) q))).sum =
        (L.map (fun q => herbKeys (g q))).sum + {animalKey x.1} := by
      apply add_right_cancel (b := herbKeys (g x.2))
      rw [hu]
      abel
    rw [hu2, List.map_cons, ← Multiset.cons_coe, ← Multiset.singleton_add]
    abel

theorem applyMovesC_total :
    ∀ (ms : List (AnimalQ × Pos)) (g : Pos → CellQ) (L : List Pos), L.Nodup →
    (∀ x ∈ ms, x.2 ∈ L) →
    (L.map (fun q => carnKeys (applyMovesC g ms q))).sum =
    (L.map (fun q => carnKeys (g q))).sum +
      (ms.map (fun x => animalKey x.1) : List (ℕ × ℚ)) := by
  intro ms
  induction ms with
  | nil => intro g L _ _; simp [applyMovesC]
  | cons x ms ih =>
    intro g L hnd hdest
    have hx : x.2 ∈ L := hdest x (List.mem_cons_self _ _)
    simp only [applyMovesC]
    rw [ih _ L hnd (fun y hy => hdest y (List.mem_cons_of_mem _ hy))]
    have hu := sum_map_update carnKeys g x.2 (appendCarn (g x.2) x.1) L hnd hx
    rw [carnKeys_appendCarn] at hu
    have hu2 : (L.map (fun q => carnKeys (Function.update g x.2
        (appendCarn (g x.2) x.1) q))).sum =
        (L.map (fun q => carnKeys (g q))).sum + {animalKey x.1} := by
      apply add_right_cancel (b := carnKeys (g x.2))
      rw [hu]
      abel
    rw [hu2, List.map_cons, ← Multiset.cons_coe, ← Multiset.singleton_add]
    abel

theorem applyMovesC_herbKeys :
    ∀ (ms : List (AnimalQ × Pos)) (g : Pos → CellQ) (q : Pos),
    herbKeys (applyMovesC g ms q) = herbKeys (g q) := by
  intro ms
  induction ms with
  | nil => intro g q; rfl
  | cons x ms ih =>
    intro g q
    simp only [applyMovesC]
    rw [ih]
    by_cases h : q = x.2
    · subst h
      rw [Function.update_same]
      rfl
    · rw [Function.update_noteq h]

theorem applyMovesH_carnKeys :
    ∀ (ms : List (AnimalQ × Pos)) (g : Pos → CellQ) (q : Pos),
    carnKeys (applyMovesH g ms q) = carnKeys (g q) := by
  intro ms
  induction ms with
  | nil => intro g q; rfl
  | cons x ms ih =>
    intro g q
    simp only [applyMovesH]
    rw [ih]
    by_cases h : q = x.2
    · subst h
      rw [Function.update_same]
      rfl
    · rw [Function.update_noteq h]

theorem applyMovesH_geography :
    ∀ (ms : List (AnimalQ × Pos)) (g : Pos → CellQ) (q : Pos),
    (applyMovesH g ms q).geography = (g q).geography := by
  intro ms
  induction ms with
  | nil => intro g q; rfl
  | cons x ms ih =>
    intro g q
    simp only [applyMovesH]
    rw [ih]
    by_cases h : q = x.2
    · subst h
      rw [Function.update_same]
      rfl
    · rw [Function.update_noteq h]

theorem applyMovesC_geography :
    ∀ (ms : List (AnimalQ × Pos)) (g : Pos → CellQ) (q : Pos),
    (applyMovesC g ms q).geography = (g q).geography := by
  intro ms
  induction ms with
  | nil => intro g q; rfl
  | cons x ms ih =>
    intro g q
    simp only [applyMovesC]
    rw [ih]
    by_cases h : q = x.2
    · subst h
      rw [Function.update_same]
      rfl
    · rw [Function.update_noteq h]

theorem applyMovesH_not_dest :
    ∀ (ms : List (AnimalQ × Pos)) (g : Pos → CellQ) (q : Pos),
    (∀ x ∈ ms, x.2 ≠ q) → applyMovesH g ms q = g q := by
  intro ms
  induction ms with
  | nil => intro g q _; rfl
  | cons x ms ih =>
    intro g q hq
    simp only [applyMovesH]
    rw [ih _ _ (fun y hy => hq y (List.mem_cons_of_mem _ hy)),
      Function.update_noteq (fun he => hq x (List.mem_cons_self _ _) he.symm)]

theorem applyMovesC_not_dest :
    ∀ (ms : List (AnimalQ × Pos)) (g : Pos → CellQ) (q : Pos),
    (∀ x ∈ ms, x.2 ≠ q) → applyMovesC g ms q = g q := by
  intro ms
  induction ms with
  | nil => intro g q _; rfl
  | cons x ms ih =>
    intro g q hq
    simp only [applyMovesC]
    rw [ih _ _ (fun y hy => hq y (List.mem_cons_of_mem _ hy)),
      Function.update_noteq (fun he => hq x (List.mem_cons_self _ _) he.symm)]

theorem migrateStep_dims (g : SimCfg) (Ω : CycleO) (m : MapState) (p : Pos) :
    (Map.migrateStep g Ω m p).rows = m.rows ∧
    (Map.migrateStep g Ω m p).cols = m.cols ∧
    (Map.migrateStep g Ω m p).geoA = m.geoA := by
  unfold Map.migrateStep
  split_ifs <;> exact ⟨rfl, rfl, rfl⟩

theorem migrateStep_total (g : SimCfg) (Ω : CycleO) (m : MapState) (p : Pos)
    (hp1 : p.1 < m.rows) (hp2 : p.2 < m.cols) :
    totalHerbKeys (Map.migrateStep g Ω m p) = totalHerbKeys m ∧
    totalCarnKeys (Map.migrateStep g Ω m p) = totalCarnKeys m := by
  unfold Map.migrateStep totalHerbKeys totalCarnKeys
  split_ifs with hW
  · have hnd := nodup_positionsList m.rows m.cols
    have hpL : p ∈ positionsList m.rows m.cols :=
      (mem_positionsList m.rows m.cols p).mpr ⟨hp1, hp2⟩
    set L := positionsList m.rows m.cols with hL
    set nb := Map.get_neighbors m p.1 p.2 with hnb
    set t := Cell.animal_migration g.PH g.PC g.fitfH g.fitfC nb (Ω.migH p)
      (Ω.migC p) (m.cells p) with ht
    have hdestH : ∀ x ∈ t.2.1, x.2 ∈ L := by
      intro x hx
      have hnb' := ((migLoop_spec g.PH g.fitfH nb (Ω.migH p)
        (m.cells p).animal_list 0).2.1 x hx).2
      exact (mem_positionsList m.rows m.cols x.2).mpr
        (get_neighbors_bounds m p.1 p.2 hp1 hp2 x.2 hnb')
    have hdestC : ∀ x ∈ t.2.2, x.2 ∈ L := by
      intro x hx
      have hnb' := ((migLoop_spec g.PC g.fitfC nb (Ω.migC p)
        (m.cells p).Carnivores_list 0).2.1 x hx).2
      exact (mem_positionsList m.rows m.cols x.2).mpr
        (get_neighbors_bounds m p.1 p.2 hp1 hp2 x.2 hnb')
    constructor
    · have e0 : L.map (fun q => herbKeys (applyMovesC (applyMovesH
          (Function.update m.cells p t.1) t.2.1) t.2.2 q)) =
          L.map (fun q => herbKeys (applyMovesH
          (Function.update m.cells p t.1) t.2.1 q)) :=
        List.map_congr_left (fun q _ => applyMovesC_herbKeys _ _ _)
      show (L.map (fun q => herbKeys (applyMovesC (applyMovesH
        (Function.update m.cells p t.1) t.2.1) t.2.2 q))).sum =
        (L.map (fun q => herbKeys (m.cells q))).sum
      rw [e0, applyMovesH_total t.2.1 _ L hnd hdestH]
      have hu := sum_map_update herbKeys m.cells p t.1 L hnd hpL
      have hpart : herbKeys (m.cells p) = herbKeys t.1 +
          ((t.2.1.map (fun x => animalKey x.1) : List (ℕ × ℚ)) :
            Multiset (ℕ × ℚ)) :=
        (migLoop_spec g.PH g.fitfH nb (Ω.migH p)
          (m.cells p).animal_list 0).2.2.1
      rw [hpart] at hu
      refine add_right_cancel (b := herbKeys t.1) ?_
      calc (L.map (fun q => herbKeys (Function.update m.cells p t.1 q))).sum +
            ((t.2.1.map (fun x => animalKey x.1) : List (ℕ × ℚ)) :
              Multiset (ℕ × ℚ)) + herbKeys t.1
          = (L.map (fun q => herbKeys (Function.update m.cells p t.1 q))).sum +
            (herbKeys t.1 + ((t.2.1.map (fun x => animalKey x.1) :
              List (ℕ × ℚ)) : Multiset (ℕ × ℚ))) := by abel
        _ = (L.map (fun q => herbKeys (m.cells q))).sum + herbKeys t.1 := hu
    · have e0 : L.map (fun q => carnKeys (applyMovesC (applyMovesH
          (Function.update m.cells p t.1) t.2.1) t.2.2 q)) =
          L.map (fun q => carnKeys (applyMovesC (applyMovesH
          (Function.update m.cells p t.1) t.2.1) t.2.2 q)) := rfl
      show (L.map (fun q => carnKeys (applyMovesC (applyMovesH
        (Function.update m.cells p t.1) t.2.1) t.2.2 q))).sum =
        (L.map (fun q => carnKeys (m.cells q))).sum
      rw [applyMovesC_total t.2.2 _ L hnd hdestC]
      have e1 : L.map (fun q => carnKeys (applyMovesH
          (Function.update m.cells p t.1) t.2.1 q)) =
          L.map (fun q => carnKeys (Function.update m.cells p t.1 q)) :=
        List.map_congr_left (fun q _ => applyMovesH_carnKeys _ _ _)
      rw [e1]
      have hu := sum_map_update carnKeys m.cells p t.1 L hnd hpL
      have hpart : carnKeys (m.cells p) = carnKeys t.1 +
          ((t.2.2.map (fun x => animalKey x.1) : List (ℕ × ℚ)) :
            Multiset (ℕ × ℚ)) :=
        (migLoop_spec g.PC g.fitfC nb (Ω.migC p)
          (m.cells p).Carnivores_list 0).2.2.1
      rw [hpart] at hu
      refine add_right_cancel (b := carnKeys t.1) ?_
      calc (L.map (fun q => carnKeys (Function.update m.cells p t.1 q))).sum +
            ((t.2.2.map (fun x => animalKey x.1) : List (ℕ × ℚ)) :
              Multiset (ℕ × ℚ)) + carnKeys t.1
          = (L.map (fun q => carnKeys (Function.update m.cells p t.1 q))).sum +
            (carnKeys t.1 + ((t.2.2.map (fun x => animalKey x.1) :
              List (ℕ × ℚ)) : Multiset (ℕ × ℚ))) := by abel
        _ = (L.map (fun q => carnKeys (m.cells q))).sum + carnKeys t.1 := hu
  · exact ⟨rfl, rfl⟩

theorem migrate_foldl_total (g : SimCfg) (Ω : CycleO) :
    ∀ (L : List Pos) (m : MapState), (∀ p ∈ L, p.1 < m.rows ∧ p.2 < m.cols) →
    totalHerbKeys (L.foldl (Map.migrateStep g Ω) m) = totalHerbKeys m ∧
    totalCarnKeys (L.foldl (Map.migrateStep g Ω) m) = totalCarnKeys m := by
  intro L
  induction L with
  | nil => intro m _; exact ⟨rfl, rfl⟩
  | cons p L ih =>
    intro m hb
    have hp := hb p (List.mem_cons_self _ _)
    have hdim := migrateStep_dims g Ω m p
    have hstep := migrateStep_total g Ω m p hp.1 hp.2
    have hrec := ih (Map.migrateStep g Ω m p) (fun q hq => by
      rw [hdim.1, hdim.2.1]
      exact hb q (List.mem_cons_of_mem _ hq))
    simp only [List.foldl_cons]
    exact ⟨hrec.1.trans hstep.1, hrec.2.trans hstep.2⟩

theorem migrateStep_all_moved (g : SimCfg) (Ω : CycleO) (m : MapState)
    (p : Pos)
    (hH : ∀ a ∈ (m.cells p).animal_list, a.moved = true)
    (hC : ∀ a ∈ (m.cells p).Carnivores_list, a.moved = true) :
    Map.migrateStep g Ω m p = m := by
  unfold Map.migrateStep
  split_ifs with hW
  · have h1 := (migLoop_spec g.PH g.fitfH (Map.get_neighbors m p.1 p.2)
      (Ω.migH p) (m.cells p).animal_list 0).2.2.2 hH
    have h2 := (migLoop_spec g.PC g.fitfC (Map.get_neighbors m p.1 p.2)
      (Ω.migC p) (m.cells p).Carnivores_list 0).2.2.2 hC
    unfold Cell.animal_migration
    rw [h1, h2]
    show ({m with cells := applyMovesC (applyMovesH (Function.update m.cells p (m.cells p)) []) []} : MapState) = m
    rw [Function.update_eq_self]
    rfl
  · rfl

theorem migrate_foldl_all_moved (g : SimCfg) (Ω : CycleO) :
    ∀ (L : List Pos) (m : MapState),
    (∀ p, ∀ a ∈ (m.cells p).animal_list, a.moved = true) →
    (∀ p, ∀ a ∈ (m.cells p).Carnivores_list, a.moved = true) →
    L.foldl (Map.migrateStep g Ω) m = m := by
  intro L
  induction L with
  | nil => intro m _ _; rfl
  | cons p L ih =>
    intro m hH hC
    simp only [List.foldl_cons, migrateStep_all_moved g Ω m p (hH p) (hC p)]
    exact ih m hH hC

/-- C5: the migration phase conserves the island's animals: (i) the multiset
of all herbivores and of all carnivores on the island (erasing the `moved`
flag, which the transfers set) is unchanged by `Map.migrate` — no animal is
lost or duplicated, each ends up in exactly one cell's resident list; (ii) an
island on which every animal is already flagged `moved` migrates nobody at
all — the flag enforces at most one move per sweep; and (iii) in the
single-cell loop, every animal flagged `moved` stays in its cell, every
recorded transfer carries `moved = true` and targets one of the cell's
neighbours, and the stayers plus the transfers partition the original
residents. -/
theorem C5_migration_conserves (g : SimCfg) (Ω : CycleO) (m : MapState) :
    totalHerbKeys (Map.migrate g Ω m) = totalHerbKeys m ∧
    totalCarnKeys (Map.migrate g Ω m) = totalCarnKeys m ∧
    ((∀ p, ∀ a ∈ (m.cells p).animal_list, a.moved = true) →
     (∀ p, ∀ a ∈ (m.cells p).Carnivores_list, a.moved = true) →
      Map.migrate g Ω m = m) ∧
    (∀ (P : AnimalParams) (fitf : ℕ → ℚ → ℚ) (nb : List Pos)
      (dec : ℕ → Bool × Bool × ℕ) (l : List AnimalQ) (k : ℕ),
      (∀ a ∈ l, a.moved = true → a ∈ (migLoop P fitf nb dec l k).1) ∧
      (∀ x ∈ (migLoop P fitf nb dec l k).2, x.1.moved = true ∧ x.2 ∈ nb) ∧
      ((l.map animalKey : List (ℕ × ℚ)) : Multiset (ℕ × ℚ)) =
        (((migLoop P fitf nb dec l k).1.map animalKey : List (ℕ × ℚ)) :
          Multiset (ℕ × ℚ)) +
        (((migLoop P fitf nb dec l k).2.map (fun x => animalKey x.1) :
          List (ℕ × ℚ)) : Multiset (ℕ × ℚ))) := by
  have hbounds : ∀ p ∈ positionsList m.rows m.cols,
      p.1 < m.rows ∧ p.2 < m.cols :=
    fun p hp => (mem_positionsList m.rows m.cols p).mp hp
  have htot := migrate_foldl_total g Ω (positionsList m.rows m.cols) m hbounds
  refine ⟨htot.1, htot.2, ?_, ?_⟩
  · intro hH hC
    exact migrate_foldl_all_moved g Ω (positionsList m.rows m.cols) m hH hC
  · intro P fitf nb dec l k
    obtain ⟨h1, h2, h3, -⟩ := migLoop_spec P fitf nb dec l k
    exact ⟨h1, h2, h3⟩

/-- A configuration with the default tables and a trivial fitness
abstraction, for concrete instantiations. -/
def c5Cfg : SimCfg :=
  ⟨herbParams, carnParams, ParamCellDefault, fun _ _ => 0, fun _ _ => 0⟩

/-- A cycle oracle whose draws all fail and whose shuffles are the
identity. -/
def c5Oracle : CycleO :=
  ⟨fun _ l => l, fun _ _ _ => false, fun _ _ => false, fun _ _ => 0,
    fun _ _ => false, fun _ _ => 0, fun _ _ => (false, false, 0),
    fun _ _ => (false, false, 0), fun _ _ => false, fun _ _ => false⟩

/-- A 1×1 island whose single herbivore is already flagged `moved`. -/
def c5Map : MapState :=
  ⟨1, 1, fun _ => 'L', fun _ => ⟨'L', 0, [⟨3, 7, true⟩], []⟩⟩

/-- Witness for C5 at a concrete input: on an island whose animals are all
flagged `moved`, the migration sweep changes nothing. -/
theorem C5_migration_conserves_witness :
    Map.migrate c5Cfg c5Oracle c5Map = c5Map :=
  (C5_migration_conserves c5Cfg c5Oracle c5Map).2.2.1
    (by
      intro p a ha
      simp only [c5Map, List.mem_singleton] at ha
      rw [ha])
    (by
      intro p a ha
      simp only [c5Map] at ha
      exact absurd ha (List.not_mem_nil a))

/-- C4: `Map.annul_cycle` runs exactly the eight phases in source order —
fodder production (L/H cells only), births, feeding, the distinct
`move_permit` pass clearing every `moved` flag, migration, aging+weight
loss, fodder reset, death — and each per-cell phase touches only the cells
its mask selects: Water cells are untouched by every phase, production adds
`f_max_L`/`f_max_H` to Lowland/Highland fodder only, `move_permit` changes
nothing but the `moved` flags, `reset_fodder` only zeroes fodder, aging adds
one year and applies the weight loss to every resident, and each cell's
migration neighbours are at most four adjacent non-Water cells read from the
grid. -/
theorem C4_annual_cycle_order (g : SimCfg) (Ω : CycleO) (m : MapState)
    (hwf : ∀ p, (m.cells p).geography = m.geoA p) :
    Map.annul_cycle g Ω m =
      Map.die g Ω (Map.reset_fodder (Map.grow_loss g (Map.migrate g Ω
        (Map.move_permit (Map.feed g Ω (Map.givebirth g Ω
          (Map.produce g m))))))) ∧
    (∀ p, m.geoA p = 'L' → (Map.produce g m).cells p =
      {m.cells p with fodder := (m.cells p).fodder + g.pc.f_max_L}) ∧
    (∀ p, m.geoA p = 'H' → (Map.produce g m).cells p =
      {m.cells p with fodder := (m.cells p).fodder + g.pc.f_max_H}) ∧
    (∀ p, m.geoA p ≠ 'L' → m.geoA p ≠ 'H' →
      (Map.produce g m).cells p = m.cells p) ∧
    (∀ p, m.geoA p ≠ 'W' →
      ((Map.move_permit m).cells p).animal_list =
        (m.cells p).animal_list.map (fun a => {a with moved := false}) ∧
      ((Map.move_permit m).cells p).Carnivores_list =
        (m.cells p).Carnivores_list.map (fun a => {a with moved := false}) ∧
      ((Map.move_permit m).cells p).fodder = (m.cells p).fodder ∧
      ((Map.move_permit m).cells p).geography = (m.cells p).geography) ∧
    (∀ p, m.geoA p = 'W' → (Map.move_permit m).cells p = m.cells p) ∧
    (∀ p, m.geoA p = 'W' → (Map.givebirth g Ω m).cells p = m.cells p) ∧
    (∀ p, m.geoA p = 'W' → (Map.feed g Ω m).cells p = m.cells p) ∧
    (∀ p, m.geoA p = 'W' → (Map.grow_loss g m).cells p = m.cells p) ∧
    (∀ p, m.geoA p = 'W' → (Map.reset_fodder m).cells p = m.cells p) ∧
    (∀ p, m.geoA p = 'W' → (Map.die g Ω m).cells p = m.cells p) ∧
    (∀ p, m.geoA p = 'W' → (Map.migrate g Ω m).cells p = m.cells p) ∧
    (∀ p, m.geoA p ≠ 'W' →
      ((Map.reset_fodder m).cells p).fodder = 0 ∧
      ((Map.reset_fodder m).cells p).animal_list = (m.cells p).animal_list ∧
      ((Map.reset_fodder m).cells p).Carnivores_list =
        (m.cells p).Carnivores_list) ∧
    (∀ p, m.geoA p ≠ 'W' →
      ((Map.grow_loss g m).cells p).animal_list =
        (m.cells p).animal_list.map
          (fun a => Animal.weight_loss_per_year g.PH
            (Animal.growth_per_year a)) ∧
      ((Map.grow_loss g m).cells p).Carnivores_list =
        (m.cells p).Carnivores_list.map
          (fun a => Animal.weight_loss_per_year g.PC
            (Animal.growth_per_year a))) ∧
    (∀ i j, (Map.get_neighbors m i j).length ≤ 4 ∧
      ∀ q ∈ Map.get_neighbors m i j, (m.cells q).geography ≠ 'W' ∧
        (q = (i - 1, j) ∧ 0 < i ∨ q = (i + 1, j) ∧ i < m.rows - 1 ∨
         q = (i, j - 1) ∧ 0 < j ∨ q = (i, j + 1) ∧ j < m.cols - 1)) := by
  refine ⟨rfl, ?_, ?_, ?_, ?_, ?_, ?_, ?_, ?_, ?_, ?_, ?_, ?_, ?_, ?_⟩
  · intro p hp
    simp only [Map.produce]
    rw [if_pos (Or.inl hp)]
    unfold Cell.produce_fodder
    rw [if_neg (by rw [hwf p, hp]; decide), if_pos (by rw [hwf p, hp])]
  · intro p hp
    simp only [Map.produce]
    rw [if_pos (Or.inr hp)]
    unfold Cell.produce_fodder
    rw [if_neg (by rw [hwf p, hp]; decide), if_neg (by rw [hwf p, hp]; decide)]
  · intro p hp1 hp2
    simp only [Map.produce]
    rw [if_neg (by tauto)]
  · intro p hp
    simp only [Map.move_permit, movedReset]
    rw [if_pos hp]
    exact ⟨rfl, rfl, rfl, rfl⟩
  · intro p hp
    simp only [Map.move_permit]
    rw [if_neg (by simp [hp])]
  · intro p hp
    simp only [Map.givebirth]
    rw [if_neg (by simp [hp])]
  · intro p hp
    simp only [Map.feed]
    rw [if_neg (by simp [hp])]
  · intro p hp
    simp only [Map.grow_loss]
    rw [if_neg (by simp [hp])]
  · intro p hp
    simp only [Map.reset_fodder]
    rw [if_neg (by simp [hp])]
  · intro p hp
    simp only [Map.die]
    rw [if_neg (by simp [hp])]
  · intro p hp
    unfold Map.migrate
    have hw : (m.cells p).geography = 'W' := by rw [hwf p, hp]
    clear hp hwf
    generalize positionsList m.rows m.cols = L
    induction L generalizing m with
    | nil => rfl
    | cons x L ih =>
      simp only [List.foldl_cons]
      have hcell : (Map.migrateStep g Ω m x).cells p = m.cells p := by
        unfold Map.migrateStep
        split_ifs with hx
        · have hne : ∀ y ∈ (Cell.animal_migration g.PH g.PC g.fitfH g.fitfC
              (Map.get_neighbors m x.1 x.2) (Ω.migH x) (Ω.migC x)
              (m.cells x)).2.1, y.2 ≠ p := by
            intro y hy he
            have := get_neighbors_nonwater m x.1 x.2 y.2
              (((migLoop_spec g.PH g.fitfH _ (Ω.migH x)
                (m.cells x).animal_list 0).2.1 y hy).2)
            rw [he, hw] at this
            exact this rfl
          have hneC : ∀ y ∈ (Cell.animal_migration g.PH g.PC g.fitfH g.fitfC
              (Map.get_neighbors m x.1 x.2) (Ω.migH x) (Ω.migC x)
              (m.cells x)).2.2, y.2 ≠ p := by
            intro y hy he
            have := get_neighbors_nonwater m x.1 x.2 y.2
              (((migLoop_spec g.PC g.fitfC _ (Ω.migC x)
                (m.cells x).Carnivores_list 0).2.1 y hy).2)
            rw [he, hw] at this
            exact this rfl
          have hxp : x ≠ p := by
            intro he
            rw [he, hw] at hx
            exact hx rfl
          show (applyMovesC (applyMovesH (Function.update m.cells x _) _) _) p
            = m.cells p
          rw [applyMovesC_not_dest _ _ _ hneC, applyMovesH_not_dest _ _ _ hne,
            Function.update_noteq (fun he => hxp he.symm)]
        · rfl
      rw [ih (Map.migrateStep g Ω m x) (by rw [hcell]; exact hw)]
      exact hcell
  · intro p hp
    simp only [Map.reset_fodder]
    rw [if_pos hp]
    exact ⟨rfl, rfl, rfl⟩
  · intro p hp
    simp only [Map.grow_loss, Cell.grow_and_loose_weight_carnivore,
      Cell.grow_and_loose_weight_herbivore]
    rw [if_pos hp]
    exact ⟨rfl, rfl⟩
  · intro i j
    refine ⟨get_neighbors_len m i j, ?_⟩
    intro q hq
    refine ⟨get_neighbors_nonwater m i j q hq, ?_⟩
    rcases (mem_get_neighbors m i j q).mp hq with ⟨h1, -, rfl⟩ | ⟨h1, -, rfl⟩ |
      ⟨h1, -, rfl⟩ | ⟨h1, -, rfl⟩
    · exact Or.inl ⟨rfl, h1⟩
    · exact Or.inr (Or.inl ⟨rfl, h1⟩)
    · exact Or.inr (Or.inr (Or.inl ⟨rfl, h1⟩))
    · exact Or.inr (Or.inr (Or.inr ⟨rfl, h1⟩))

/-- Witness for C4 at a concrete well-formed island (`Map.init` makes the
cell letters agree with the terrain array). -/
theorem C4_annual_cycle_order_witness :
    Map.annul_cycle c5Cfg c5Oracle c2Island =
      Map.die c5Cfg c5Oracle (Map.reset_fodder (Map.grow_loss c5Cfg
        (Map.migrate c5Cfg c5Oracle (Map.move_permit (Map.feed c5Cfg c5Oracle
          (Map.givebirth c5Cfg c5Oracle (Map.produce c5Cfg c2Island))))))) :=
  (C4_annual_cycle_order c5Cfg c5Oracle c2Island (fun p => rfl)).1

end Biosim
